import Mathlib

/-!
Verification development for the rehapt structural comparison engine.

The Go sources are shallowly embedded: Go interface values (as seen through
the reflect package) become the inductive type `GoVal`; the comparator
dispatch registry of `initComparators` becomes the list `comparators`;
the recursive `compare` function, the variable store and the substitution
engine are translated as executable Lean functions.  Strings are modelled
as `List Char` to ease induction.  The Go regexp engine and the strconv
float formatter are external library collaborators: the two anchored
token regexps of the engine (whose shape is fixed by the source) are
implemented directly, while arbitrary user-supplied regexps are an oracle
field of the state.  Recursion of `compare` through `LoadVar` is not
structurally bounded in Go (a stored value is compared anew), so the
model uses a fuel parameter that is consumed once per dispatch level.
-/

namespace Rehapt

abbrev Str := List Char

/-- Character class of the variable-name regexps: `[a-zA-Z0-9]`. -/
def isAlnumChar (c : Char) : Bool :=
  (('a' ≤ c && c ≤ 'z') || ('A' ≤ c && c ≤ 'Z') || ('0' ≤ c && c ≤ '9'))

/-- Model of `variableNameRegexp.MatchString`, i.e. `^[a-zA-Z0-9]+$`:
a non-empty all-alphanumeric string. -/
def validVarname (s : Str) : Bool :=
  !s.isEmpty && s.all isAlnumChar

/-- Widths of the Go signed integer kinds (`int`, `int8` .. `int64`). -/
inductive IntW where
  | iDefault | i8 | i16 | i32 | i64
deriving DecidableEq, Repr

/-- Widths of the Go unsigned integer kinds (`uint`, `uint8` .. `uint64`). -/
inductive UintW where
  | uDefault | u8 | u16 | u32 | u64
deriving DecidableEq, Repr

/-- Widths of the Go float kinds. -/
inductive FloatW where
  | f32 | f64
deriving DecidableEq, Repr

/-- The reflect.Kind values the engine inspects. -/
inductive GoKind where
  | kInvalid | kStruct | kSlice | kMap | kString | kBool
  | kInt | kInt8 | kInt16 | kInt32 | kInt64
  | kUint | kUint8 | kUint16 | kUint32 | kUint64
  | kFloat32 | kFloat64
deriving DecidableEq, Repr

def IntW.kind : IntW → GoKind
  | .iDefault => .kInt
  | .i8 => .kInt8
  | .i16 => .kInt16
  | .i32 => .kInt32
  | .i64 => .kInt64

def UintW.kind : UintW → GoKind
  | .uDefault => .kUint
  | .u8 => .kUint8
  | .u16 => .kUint16
  | .u32 => .kUint32
  | .u64 => .kUint64

def FloatW.kind : FloatW → GoKind
  | .f32 => .kFloat32
  | .f64 => .kFloat64

/-- Go values flowing through `compare`, i.e. `interface` values of the
concrete types the library manipulates.  Numbers carry exact mathematical
values (`Int`, `Nat`, `ℚ`): Go machine arithmetic that matters (two's
complement conversion, truncation) is applied explicitly at use sites.
The `TimeDelta` matcher is not representable here because parsing of time
strings is an external library concern; no claim depends on it. -/
inductive GoVal where
  | vnil
  | vbool (b : Bool)
  | vint (w : IntW) (n : Int)
  | vuint (w : UintW) (n : Nat)
  | vfloat (w : FloatW) (q : ℚ)
  | vstring (s : Str)
  | vany (s : Str)
  | vstorevar (s : Str)
  | vloadvar (s : Str)
  | vregexp (s : Str)
  | vslice (unsorted : Bool) (xs : List GoVal)
  | vmap (partial_ : Bool) (entries : List (Str × GoVal))
  | vnumberDelta (value delta : ℚ)
  | vnot (inner : GoVal)
  | vregexpVars (pattern : Str) (vars : List (Nat × Str))
  | vother (name : Str)
deriving Repr

/-- Whether a value is the nil interface (`expected == nil` / `actual == nil`). -/
def GoVal.isNil : GoVal → Bool
  | .vnil => true
  | _ => false

/-- The concrete Go types that matter for dispatch.  Types not registered
in the comparator list are collapsed into `tOtherStruct` (structs) since
only struct rows carry specific type keys besides the matcher types. -/
inductive GoType where
  | tNil
  | tNot | tTimeDelta | tNumberDelta | tRegexpVars
  | tUnsortedS | tSliceOther
  | tPartialM | tMapOther
  | tAnyStr | tStoreVar | tLoadVar | tRegexpStr | tStringOther
  | tBoolT
  | tIntT (w : IntW) | tUintT (w : UintW) | tFloatT (w : FloatW)
  | tOtherStruct (name : Str)
deriving DecidableEq, Repr

/-- Model of `reflect.TypeOf(v).Kind()`. `vnil` maps to `kInvalid`
(reflect yields no type for a nil interface; `compare` never consults it). -/
def GoVal.kindOf : GoVal → GoKind
  | .vnil => .kInvalid
  | .vbool _ => .kBool
  | .vint w _ => w.kind
  | .vuint w _ => w.kind
  | .vfloat w _ => w.kind
  | .vstring _ => .kString
  | .vany _ => .kString
  | .vstorevar _ => .kString
  | .vloadvar _ => .kString
  | .vregexp _ => .kString
  | .vslice _ _ => .kSlice
  | .vmap _ _ => .kMap
  | .vnumberDelta _ _ => .kStruct
  | .vnot _ => .kStruct
  | .vregexpVars _ _ => .kStruct
  | .vother _ => .kStruct

/-- Model of `reflect.TypeOf(v)` restricted to the distinctions dispatch makes. -/
def GoVal.typeOf : GoVal → GoType
  | .vnil => .tNil
  | .vbool _ => .tBoolT
  | .vint w _ => .tIntT w
  | .vuint w _ => .tUintT w
  | .vfloat w _ => .tFloatT w
  | .vstring _ => .tStringOther
  | .vany _ => .tAnyStr
  | .vstorevar _ => .tStoreVar
  | .vloadvar _ => .tLoadVar
  | .vregexp _ => .tRegexpStr
  | .vslice u _ => if u then .tUnsortedS else .tSliceOther
  | .vmap p _ => if p then .tPartialM else .tMapOther
  | .vnumberDelta _ _ => .tNumberDelta
  | .vnot _ => .tNot
  | .vregexpVars _ _ => .tRegexpVars
  | .vother n => .tOtherStruct n

/-- Names of the comparison functions registered in `initComparators`. -/
inductive CompName where
  | notC | timeDeltaC | numberDeltaC | regexpVarsC
  | unsortedSliceC | sliceC
  | partialMapC | mapC
  | anyC | storeVarC | loadVarC | regexpC | stringC
  | boolC | intC | uintC | floatC
deriving DecidableEq, Repr

/-- One row of the comparator registry: required kind, optional exact type. -/
structure CompRule where
  kind : GoKind
  type : Option GoType
  comp : CompName
deriving DecidableEq, Repr

/-- The comparator registry of `initComparators`, in registration order.
The list order matters: the first matching comparator is used. -/
def comparators : List CompRule :=
  [ ⟨.kStruct, some .tNot, .notC⟩
  , ⟨.kStruct, some .tTimeDelta, .timeDeltaC⟩
  , ⟨.kStruct, some .tNumberDelta, .numberDeltaC⟩
  , ⟨.kStruct, some .tRegexpVars, .regexpVarsC⟩
  , ⟨.kSlice, some .tUnsortedS, .unsortedSliceC⟩
  , ⟨.kSlice, none, .sliceC⟩
  , ⟨.kMap, some .tPartialM, .partialMapC⟩
  , ⟨.kMap, none, .mapC⟩
  , ⟨.kString, some .tAnyStr, .anyC⟩
  , ⟨.kString, some .tStoreVar, .storeVarC⟩
  , ⟨.kString, some .tLoadVar, .loadVarC⟩
  , ⟨.kString, some .tRegexpStr, .regexpC⟩
  , ⟨.kString, none, .stringC⟩
  , ⟨.kBool, none, .boolC⟩
  , ⟨.kInt, none, .intC⟩
  , ⟨.kInt8, none, .intC⟩
  , ⟨.kInt16, none, .intC⟩
  , ⟨.kInt32, none, .intC⟩
  , ⟨.kInt64, none, .intC⟩
  , ⟨.kUint, none, .uintC⟩
  , ⟨.kUint8, none, .uintC⟩
  , ⟨.kUint16, none, .uintC⟩
  , ⟨.kUint32, none, .uintC⟩
  , ⟨.kUint64, none, .uintC⟩
  , ⟨.kFloat32, none, .floatC⟩
  , ⟨.kFloat64, none, .floatC⟩
  ]

/-- The dispatch loop of `compare`: iterate in registration order, select
the first rule whose kind matches and whose type key is nil or equals the
expected value's exact type. -/
def findRule (k : GoKind) (t : GoType) : Option CompName :=
  (comparators.find? (fun r => r.kind == k && (r.type == none || r.type == some t))).map
    CompRule.comp

/-- Which comparator the registry selects for a given expected value. -/
def dispatchOf (e : GoVal) : Option CompName :=
  findRule e.kindOf e.typeOf

/-- Outcome of evaluating a user-supplied regexp against a string: the Go
regexp engine is an external library, modelled as an oracle. -/
inductive RegexOutcome where
  | compileError
  | noMatch
  | matched (groups : List Str)

/-- The mutable state of a `Rehapt` instance that the comparison core
reads and writes: the variable store, the float formatting precision,
the store-shortcut bounds, and the regexp-engine oracle. -/
structure RState where
  vars : List (Str × GoVal)
  floatPrecision : Int
  storeOpen : Str
  storeClose : Str
  regexEval : Str → Str → RegexOutcome

/-- Lookup in the variable store (Go map read of the `variables` field). -/
def lookupVar (vs : List (Str × GoVal)) (k : Str) : Option GoVal :=
  (vs.find? (fun p => p.1 == k)).map Prod.snd

/-- Go map write `r.variables[name] = v`: overwrite, keeping keys unique. -/
def RState.setVarRaw (σ : RState) (name : Str) (v : GoVal) : RState :=
  { σ with vars := (name, v) :: σ.vars.filter (fun p => !(p.1 == name)) }

/-- Model of `(*Rehapt).SetVariable`: reject invalid names, leaving the
store unchanged; otherwise overwrite silently. -/
def setVariable (σ : RState) (name : Str) (v : GoVal) : Option Str × RState :=
  if validVarname name then (none, σ.setVarRaw name v)
  else (some name, σ)

/-- Model of matching `variableStoreRegexp`, i.e. the anchored regexp
built as `^` ++ quoted open bound ++ `([a-zA-Z0-9]+)` ++ quoted close
bound ++ `$`.  The regexp matches `s` exactly when `s` decomposes as
open ++ w ++ close with `w` a non-empty alphanumeric run; the lengths
determine the decomposition uniquely, so we implement that
characterisation directly and return the captured group `w`. -/
def storeTokenName (openB closeB s : Str) : Option Str :=
  let p := openB.length
  let q := closeB.length
  let n := s.length
  let mid := (s.drop p).take (n - p - q)
  if p + q < n && s.take p == openB && s.drop (n - q) == closeB
      && mid.all isAlnumChar
  then some mid
  else none

/-- Model of `(*Rehapt).storeIfVariable`: if the expected string is a
store token, write the actual value directly into the variable map
(bypassing `SetVariable`; the captured group is alphanumeric by the
regexp) and report `true`. -/
def storeIfVariable (σ : RState) (expected : Str) (actual : GoVal) : Bool × RState :=
  match storeTokenName σ.storeOpen σ.storeClose expected with
  | some varname => (true, σ.setVarRaw varname actual)
  | none => (false, σ)

/-- A segment of a template string as decomposed by the load-token scan:
either one literal character or one `_name_` token (default bounds). -/
inductive Seg where
  | lit (c : Char)
  | tok (name : Str)
deriving DecidableEq, Repr

/-- Model of `variableLoadRegexp.FindAllStringSubmatchIndex` for the
default pattern `_([a-zA-Z0-9]+)_`: scan left to right for non-overlapping
matches, resuming after each match (Go resumes the search at the end
offset of the previous match).  At a given position a match exists
exactly when the character is an underscore followed by a maximal
non-empty alphanumeric run followed by an underscore (maximality is
forced: an alphanumeric character cannot be the closing underscore). -/
def scanLoadAux : Nat → Str → List Seg
  | _, [] => []
  | 0, _ :: _ => []
  | fuel + 1, c :: rest =>
    if c = '_' then
      let w := rest.takeWhile isAlnumChar
      if !w.isEmpty && (rest.drop w.length).head? == some '_' then
        .tok w :: scanLoadAux fuel (rest.drop (w.length + 1))
      else .lit c :: scanLoadAux fuel rest
    else .lit c :: scanLoadAux fuel rest

def scanLoad (s : Str) : List Seg := scanLoadAux s.length s

/-- Each scan step consumes at least one character, so any fuel bounding
the length gives the same result. -/
theorem scanLoadAux_irrel : ∀ (f1 f2 : Nat) (s : Str),
    s.length ≤ f1 → s.length ≤ f2 → scanLoadAux f1 s = scanLoadAux f2 s := by
  intro f1
  induction f1 with
  | zero =>
    intro f2 s h1 _
    have : s = [] := List.length_eq_zero.mp (Nat.le_zero.mp h1)
    subst this
    cases f2 <;> rfl
  | succ f1 ih =>
    intro f2 s h1 h2
    cases s with
    | nil => cases f2 <;> rfl
    | cons c rest =>
      cases f2 with
      | zero => simp at h2
      | succ f2 =>
        simp only [scanLoadAux]
        have hr : rest.length ≤ f1 := by simp at h1; omega
        have hr2 : rest.length ≤ f2 := by simp at h2; omega
        have hd : (rest.drop (((rest.takeWhile isAlnumChar)).length + 1)).length ≤ f1 := by
          simp only [List.length_drop]
          omega
        have hd2 : (rest.drop (((rest.takeWhile isAlnumChar)).length + 1)).length ≤ f2 := by
          simp only [List.length_drop]
          omega
        rw [ih f2 rest hr hr2, ih f2 _ hd hd2]

/-- The recursion equation of the scan. -/
theorem scanLoad_cons (c : Char) (rest : Str) :
    scanLoad (c :: rest) =
      if c = '_' then
        if !(rest.takeWhile isAlnumChar).isEmpty &&
            (rest.drop (rest.takeWhile isAlnumChar).length).head? == some '_' then
          .tok (rest.takeWhile isAlnumChar) ::
            scanLoad (rest.drop ((rest.takeWhile isAlnumChar).length + 1))
        else .lit c :: scanLoad rest
      else .lit c :: scanLoad rest := by
  show scanLoadAux (rest.length + 1) (c :: rest) = _
  simp only [scanLoadAux, scanLoad]
  split
  · split
    · congr 1
      exact scanLoadAux_irrel _ _ _
        (by simp only [List.length_drop]; omega) (le_refl _)
    · rfl
  · rfl

/-- The load-token names appearing in a string, in scan order. -/
def loadTokens (s : Str) : List Str :=
  (scanLoad s).filterMap (fun sg => match sg with | .tok w => some w | .lit _ => none)

/-- The source text a segment stands for. -/
def segSource : Seg → Str
  | .lit c => [c]
  | .tok w => '_' :: (w ++ ['_'])

/-- Errors of `replaceVars`, mirroring its two `fmt.Errorf` sites. -/
inductive RepErr where
  | undefinedVariable (name : Str)
  | unsupportedVariableType (name : Str)
deriving DecidableEq, Repr

def intToStr (n : Int) : Str := (toString n).data

def natToStr (n : Nat) : Str := (toString n).data

/-- Model of `strconv.FormatFloat(f, 'f', precision, bits)`: an external
library call whose exact decimal rendering is not modelled (no claim
depends on the rendered digits of a float). -/
def formatFloat (q : ℚ) (precision : Int) (w : FloatW) : Str :=
  let _ := precision
  let _ := w
  (toString q).data

/-- The value-to-string switch of `replaceVars`: the switch is on the
concrete Go type, so only `string`, the integer widths, the float widths
and `bool` stringify; every other type (including the matcher string
types and maps/slices) falls to the default error case. -/
def stringifyVar (precision : Int) : GoVal → Option Str
  | .vstring s => some s
  | .vint _ n => some (intToStr n)
  | .vuint _ n => some (natToStr n)
  | .vfloat w q => some (formatFloat q precision w)
  | .vbool b => some (if b then "true".data else "false".data)
  | _ => none

/-- Render one segment of the template: literals verbatim, tokens by
looking up and stringifying the variable (first error wins, as in the
source loop over matches). -/
def renderSeg (σ : RState) : Seg → Except RepErr Str
  | .lit c => .ok [c]
  | .tok w =>
    match lookupVar σ.vars w with
    | none => .error (.undefinedVariable w)
    | some v =>
      match stringifyVar σ.floatPrecision v with
      | some out => .ok out
      | none => .error (.unsupportedVariableType w)

/-- Splice the rendered segments back together left to right (the first
rendering error aborts, as the source loop returns on first error). -/
def spliceSegs (σ : RState) : List Seg → Except RepErr Str
  | [] => .ok []
  | sg :: rest =>
    match renderSeg σ sg with
    | .error e => .error e
    | .ok a =>
      match spliceSegs σ rest with
      | .error e => .error e
      | .ok b => .ok (a ++ b)

/-- Model of `(*Rehapt).replaceVars`: find all load tokens and splice the
stringified variable values in, preserving non-token text.  (The source's
early return on zero matches is behaviourally identical to splicing with
no matches.) -/
def replaceVars (σ : RState) (s : Str) : Except RepErr Str :=
  spliceSegs σ (scanLoad s)

/-- The kind family named in a `different kinds` message. -/
inductive WantedKind where
  | wString | wSlice | wMap | wBool | wNumeric
deriving DecidableEq, Repr

/-- Structured comparison errors, one constructor per `fmt.Errorf` site of
the comparison functions, carrying the formatted data.  `outOfFuel` is a
model artifact marking exhaustion of the recursion fuel (Go recursion
through `LoadVar` is unbounded). -/
inductive CmpErr where
  | expectedNilGotValue (actual : GoVal)
  | expectedValueGotNil (expected : GoVal)
  | unhandledType (t : GoType)
  | differentKinds (wanted : WantedKind) (got : GoKind)
  | differentSliceSizes (elen alen : Nat) (e a : GoVal)
  | sliceElementMismatch (i : Nat) (inner : CmpErr)
  | expectedElementNotFound (elem : GoVal) (index : Nat)
  | actualElementsNotFound (indexes : List Nat)
  | differentMapSizes (elen alen : Nat)
  | expectedKeyNotFound (key : Str)
  | mapElementMismatch (key : Str) (inner : CmpErr)
  | stringsMismatch (e a : Str)
  | boolsMismatch (e a : Bool)
  | intsMismatch (e a : ℚ)
  | uintsMismatch (e a : ℚ)
  | floatsMismatch (e a : ℚ)
  | deltaExceeded (value : ℚ) (actual : GoVal) (delta diff : ℚ)
  | regexpCompileError (pattern : Str)
  | regexpNoMatch (pattern actual : Str)
  | groupIndexOverflow (index count : Nat)
  | invalidVarName (name : Str)
  | varError (e : RepErr)
  | notMismatch (value actual : GoVal)
  | outOfFuel
deriving Repr

/-- The string content `ctx.ActualValue.String()` of a string-kind value
(all five concrete string types), `none` for other kinds. -/
def strContent : GoVal → Option Str
  | .vstring s => some s
  | .vany s => some s
  | .vstorevar s => some s
  | .vloadvar s => some s
  | .vregexp s => some s
  | _ => none

/-- The numeric value of an int/uint/float kind actual, widened to a
mathematical number (the `float64(...)` widening switch). -/
def numValue : GoVal → Option ℚ
  | .vint _ n => some (n : ℚ)
  | .vuint _ n => some (n : ℚ)
  | .vfloat _ q => some q
  | _ => none

/-- Go conversion `uint64(n)` of a signed integer: two's complement wrap. -/
def toUint64 (n : Int) : Nat := (n % (2 ^ 64 : Int)).toNat

/-- Go conversion `int64(m)` of an unsigned integer: two's complement wrap. -/
def toInt64 (m : Nat) : Int :=
  if m < 2 ^ 63 then (m : Int) else (m : Int) - 2 ^ 64

/-- Go conversion of a float to an integer: truncation toward zero.
(Go leaves the out-of-range case implementation-defined; the model uses
mathematical truncation, which no claim depends on.) -/
def ratTrunc (q : ℚ) : Int := q.num.tdiv (q.den : Int)

/-- Model of `numberDeltaCompare` (the `NumberDelta` matcher). -/
def numberDeltaCompareM (σ : RState) (value delta : ℚ) (a : GoVal) :
    Option CmpErr × RState :=
  match numValue a with
  | none => (some (.differentKinds .wNumeric a.kindOf), σ)
  | some af =>
    let dt := |value - af|
    if dt > delta then (some (.deltaExceeded value a delta dt), σ)
    else (none, σ)

/-- Model of `intCompare`: exact comparison against int actuals, two's
complement wrap against uint actuals, float widening against float actuals. -/
def intCompareM (σ : RState) (n : Int) (a : GoVal) : Option CmpErr × RState :=
  match a with
  | .vint _ m => if n ≠ m then (some (.intsMismatch (n : ℚ) (m : ℚ)), σ) else (none, σ)
  | .vuint _ m =>
    if toUint64 n ≠ m then (some (.uintsMismatch (n : ℚ) (m : ℚ)), σ) else (none, σ)
  | .vfloat _ q =>
    if (n : ℚ) ≠ q then (some (.floatsMismatch (n : ℚ) q), σ) else (none, σ)
  | _ => (some (.differentKinds .wNumeric a.kindOf), σ)

/-- Model of `uintCompare`. -/
def uintCompareM (σ : RState) (n : Nat) (a : GoVal) : Option CmpErr × RState :=
  match a with
  | .vint _ m =>
    if toInt64 n ≠ m then (some (.intsMismatch (n : ℚ) (m : ℚ)), σ) else (none, σ)
  | .vuint _ m => if n ≠ m then (some (.uintsMismatch (n : ℚ) (m : ℚ)), σ) else (none, σ)
  | .vfloat _ q =>
    if (n : ℚ) ≠ q then (some (.floatsMismatch (n : ℚ) q), σ) else (none, σ)
  | _ => (some (.differentKinds .wNumeric a.kindOf), σ)

/-- Model of `floatCompare`: the int and uint actual cases convert the
expected float with `int64(...)` / `uint64(...)`, i.e. truncation. -/
def floatCompareM (σ : RState) (q : ℚ) (a : GoVal) : Option CmpErr × RState :=
  match a with
  | .vint _ m =>
    if ratTrunc q ≠ m then (some (.intsMismatch q (m : ℚ)), σ) else (none, σ)
  | .vuint _ m =>
    if toUint64 (ratTrunc q) ≠ m then (some (.uintsMismatch q (m : ℚ)), σ) else (none, σ)
  | .vfloat _ p => if q ≠ p then (some (.floatsMismatch q p), σ) else (none, σ)
  | _ => (some (.differentKinds .wNumeric a.kindOf), σ)

/-- Model of `boolCompare`. -/
def boolCompareM (σ : RState) (b : Bool) (a : GoVal) : Option CmpErr × RState :=
  match a with
  | .vbool c => if b ≠ c then (some (.boolsMismatch b c), σ) else (none, σ)
  | _ => (some (.differentKinds .wBool a.kindOf), σ)

/-- Model of `stringCompare`: store-shortcut first (regardless of the
actual's kind), then kind check, variable substitution of the expected
literal, and exact comparison. -/
def stringCompareM (σ : RState) (s : Str) (a : GoVal) : Option CmpErr × RState :=
  match storeIfVariable σ s a with
  | (true, σ2) => (none, σ2)
  | (false, σ2) =>
    match strContent a with
    | none => (some (.differentKinds .wString a.kindOf), σ2)
    | some t =>
      match replaceVars σ2 s with
      | .error e => (some (.varError e), σ2)
      | .ok s2 =>
        if s2 ≠ t then (some (.stringsMismatch s2 t), σ2) else (none, σ2)

/-- Model of `regexpCompare`: the pattern goes through `replaceVars`, then
the external regexp engine decides; errors mirror the three outcomes. -/
def regexpCompareM (σ : RState) (pat : Str) (a : GoVal) : Option CmpErr × RState :=
  match strContent a with
  | none => (some (.differentKinds .wString a.kindOf), σ)
  | some t =>
    match replaceVars σ pat with
    | .error e => (some (.varError e), σ)
    | .ok pat2 =>
      match σ.regexEval pat2 t with
      | .compileError => (some (.regexpCompileError pat2), σ)
      | .noMatch => (some (.regexpNoMatch pat2 t), σ)
      | .matched _ => (none, σ)

/-- The variable-storing loop of `regexpVarsCompare`: group indexes out of
range fail, names are stored through `SetVariable` (validated).  The Go
source iterates the `Vars` map in nondeterministic order; the model fixes
the list order. -/
def regexpVarsSetAll (σ : RState) : List (Nat × Str) → List Str →
    Option CmpErr × RState
  | [], _ => (none, σ)
  | (gid, name) :: rest, groups =>
    if gid ≥ groups.length then (some (.groupIndexOverflow gid groups.length), σ)
    else
      match setVariable σ name (.vstring (groups.getD gid [])) with
      | (some bad, σ2) => (some (.invalidVarName bad), σ2)
      | (none, σ2) => regexpVarsSetAll σ2 rest groups

/-- Model of `regexpVarsCompare` (the `RegexpVars` matcher); note the
pattern is compiled as written (no variable substitution here). -/
def regexpVarsCompareM (σ : RState) (pat : Str) (vs : List (Nat × Str))
    (a : GoVal) : Option CmpErr × RState :=
  match strContent a with
  | none => (some (.differentKinds .wString a.kindOf), σ)
  | some t =>
    match σ.regexEval pat t with
    | .compileError => (some (.regexpCompileError pat), σ)
    | .noMatch => (some (.regexpNoMatch pat t), σ)
    | .matched groups => regexpVarsSetAll σ vs groups

/-- The element list of a slice-kind actual. -/
def sliceShape : GoVal → Option (List GoVal)
  | .vslice _ xs => some xs
  | _ => none

/-- The entry list of a map-kind actual. -/
def mapShape : GoVal → Option (List (Str × GoVal))
  | .vmap _ xs => some xs
  | _ => none

/-- Ordered element loop of `sliceCompare` (first mismatch wins); the
lengths are checked equal by the caller, so the expected list runs out
exactly with the actual one. -/
def sliceCompareWith (cmp : RState → GoVal → GoVal → Option CmpErr × RState)
    (σ : RState) (i : Nat) : List GoVal → List GoVal → Option CmpErr × RState
  | [], _ => (none, σ)
  | _ :: _, [] => (none, σ)
  | x :: xs, a :: as =>
    match cmp σ x a with
    | (some e, σ2) => (some (.sliceElementMismatch i e), σ2)
    | (none, σ2) => sliceCompareWith cmp σ2 (i + 1) xs as

/-- The inner scan of `unsortedSliceCompare`: try the remaining actual
elements in index order, consuming the first that compares clean.  State
changes made by failed attempts persist, as in the source (the receiver
is shared). -/
def scanForMatch (cmp : RState → GoVal → GoVal → Option CmpErr × RState)
    (σ : RState) (x : GoVal) :
    List (Nat × GoVal) → Option (List (Nat × GoVal)) × RState
  | [] => (none, σ)
  | (j, a) :: rest =>
    match cmp σ x a with
    | (none, σ2) => (some rest, σ2)
    | (some _, σ2) =>
      match scanForMatch cmp σ2 x rest with
      | (res, σ3) => (res.map (fun r => (j, a) :: r), σ3)

/-- The outer loop of `unsortedSliceCompare`: `i` is the expected index,
`rem` the unconsumed actual elements with their original indexes. -/
def unsortedLoop (cmp : RState → GoVal → GoVal → Option CmpErr × RState)
    (σ : RState) (i : Nat) :
    List GoVal → List (Nat × GoVal) → Option CmpErr × RState
  | [], rem =>
    if rem.isEmpty then (none, σ)
    else (some (.actualElementsNotFound (rem.map Prod.fst)), σ)
  | x :: xs, rem =>
    match scanForMatch cmp σ x rem with
    | (some rem2, σ2) => unsortedLoop cmp σ2 (i + 1) xs rem2
    | (none, σ2) => (some (.expectedElementNotFound x i), σ2)

/-- Model of `unsortedSliceCompare` (the error-return variant of the
source): kind check, size check, then greedy matching. -/
def unsortedSliceCompareM (cmp : RState → GoVal → GoVal → Option CmpErr × RState)
    (σ : RState) (xs : List GoVal) (e a : GoVal) : Option CmpErr × RState :=
  match sliceShape a with
  | none => (some (.differentKinds .wSlice a.kindOf), σ)
  | some as =>
    if xs.length ≠ as.length
    then (some (.differentSliceSizes xs.length as.length e a), σ)
    else unsortedLoop cmp σ 0 xs as.enum

/-- Model of `sliceCompare`: kind check, size check, ordered comparison. -/
def sliceCompareM (cmp : RState → GoVal → GoVal → Option CmpErr × RState)
    (σ : RState) (xs : List GoVal) (e a : GoVal) : Option CmpErr × RState :=
  match sliceShape a with
  | none => (some (.differentKinds .wSlice a.kindOf), σ)
  | some as =>
    if xs.length ≠ as.length
    then (some (.differentSliceSizes xs.length as.length e a), σ)
    else sliceCompareWith cmp σ 0 xs as

/-- Entry loop shared by `partialMapCompare` and `mapCompare`: for each
expected key, the actual map must contain it and the values must compare
clean (first error wins).  The Go source iterates `MapKeys()` in
nondeterministic order; the model fixes the entry-list order.  All
modelled maps are string-keyed, so the source's key-type equality check
is trivially satisfied. -/
def mapEntriesWith (cmp : RState → GoVal → GoVal → Option CmpErr × RState)
    (σ : RState) (as : List (Str × GoVal)) :
    List (Str × GoVal) → Option CmpErr × RState
  | [] => (none, σ)
  | (k, v) :: rest =>
    match lookupVar as k with
    | none => (some (.expectedKeyNotFound k), σ)
    | some w =>
      match cmp σ v w with
      | (some e, σ2) => (some (.mapElementMismatch k e), σ2)
      | (none, σ2) => mapEntriesWith cmp σ2 as rest

/-- Model of `partialMapCompare`: no size comparison, extra actual keys
are never inspected. -/
def partialMapCompareM (cmp : RState → GoVal → GoVal → Option CmpErr × RState)
    (σ : RState) (xs : List (Str × GoVal)) (a : GoVal) : Option CmpErr × RState :=
  match mapShape a with
  | none => (some (.differentKinds .wMap a.kindOf), σ)
  | some as => mapEntriesWith cmp σ as xs

/-- Model of `mapCompare`: size check up front, then the same entry loop. -/
def mapCompareM (cmp : RState → GoVal → GoVal → Option CmpErr × RState)
    (σ : RState) (xs : List (Str × GoVal)) (a : GoVal) : Option CmpErr × RState :=
  match mapShape a with
  | none => (some (.differentKinds .wMap a.kindOf), σ)
  | some as =>
    if xs.length ≠ as.length
    then (some (.differentMapSizes xs.length as.length), σ)
    else mapEntriesWith cmp σ as xs

/-- One dispatch level of `compare` for non-nil expected and actual: the
branch taken for each expected value agrees with the registry selection
`dispatchOf` (proved below in the C1 theorem).  `notCompare` is not under
the given sources (only its registration is); its body is
modelled from the spec: inverse of recursively comparing the inner value,
with inner side effects preserved.  The `vnil` arm is dead code:
`compare` returns before dispatch when expected is nil. -/
def compareStep (cmp : RState → GoVal → GoVal → Option CmpErr × RState)
    (σ : RState) (e a : GoVal) : Option CmpErr × RState :=
  match e with
  | .vnil => (none, σ)
  | .vnot inner =>
    match cmp σ inner a with
    | (none, σ2) => (some (.notMismatch inner a), σ2)
    | (some _, σ2) => (none, σ2)
  | .vnumberDelta v d => numberDeltaCompareM σ v d a
  | .vregexpVars pat vs => regexpVarsCompareM σ pat vs a
  | .vslice true xs => unsortedSliceCompareM cmp σ xs (.vslice true xs) a
  | .vslice false xs => sliceCompareM cmp σ xs (.vslice false xs) a
  | .vmap true xs => partialMapCompareM cmp σ xs a
  | .vmap false xs => mapCompareM cmp σ xs a
  | .vany _ => (none, σ)
  | .vstorevar name =>
    match setVariable σ name a with
    | (some bad, σ2) => (some (.invalidVarName bad), σ2)
    | (none, σ2) => (none, σ2)
  | .vloadvar name => cmp σ ((lookupVar σ.vars name).getD .vnil) a
  | .vregexp pat => regexpCompareM σ pat a
  | .vstring s => stringCompareM σ s a
  | .vbool b => boolCompareM σ b a
  | .vint _ n => intCompareM σ n a
  | .vuint _ n => uintCompareM σ n a
  | .vfloat _ q => floatCompareM σ q a
  | .vother n => (some (.unhandledType (.tOtherStruct n)), σ)

/-- The entry rules of `compare`, in source order: both nil succeeds, nil
expected against non-nil actual fails, non-nil expected against nil actual
fails; only otherwise is the continuation (dispatch) reached. -/
def nilEntry (σ : RState) (e a : GoVal) (k : Unit → Option CmpErr × RState) :
    Option CmpErr × RState :=
  if e.isNil then
    if a.isNil then (none, σ) else (some (.expectedNilGotValue a), σ)
  else if a.isNil then (some (.expectedValueGotNil e), σ)
  else k ()

/-- Model of `(*Rehapt).compare`: the entry nil rules in source order,
then dispatch.  Fuel bounds the recursion depth (Go's recursion through
`LoadVar` is unbounded); one unit is consumed per dispatch level. -/
def compare : Nat → RState → GoVal → GoVal → Option CmpErr × RState
  | 0, σ, e, a => nilEntry σ e a (fun _ => (some .outOfFuel, σ))
  | f + 1, σ, e, a =>
    nilEntry σ e a
      (fun _ => compareStep (fun σ2 e2 a2 => compare f σ2 e2 a2) σ e a)

/-- The initial state built by `NewRehapt` (regexp oracle left abstract;
a concrete harmless one is used in witnesses). -/
def initState : RState :=
  { vars := []
  , floatPrecision := -1
  , storeOpen := ['$']
  , storeClose := ['$']
  , regexEval := fun _ _ => .noMatch }

/-- Join strings with a separator. -/
def joinSep (sep : Str) : List Str → Str
  | [] => []
  | [x] => x
  | x :: xs => x ++ sep ++ joinSep sep xs

mutual

/-- Best-effort rendering of Go `%v` for the modelled values (composite
rendering is approximate: Go's map iteration order is nondeterministic;
no claim depends on the rendered text). -/
def showVal : GoVal → Str
  | .vnil => "<nil>".data
  | .vbool b => (toString b).data
  | .vint _ n => intToStr n
  | .vuint _ n => natToStr n
  | .vfloat _ q => (toString q).data
  | .vstring s => s
  | .vany s => s
  | .vstorevar s => s
  | .vloadvar s => s
  | .vregexp s => s
  | .vslice _ xs => '[' :: (joinSep [' '] (showValList xs) ++ [']'])
  | .vmap _ es => "map[".data ++ (joinSep [' '] (showValEntries es) ++ [']'])
  | .vnumberDelta v d =>
    '\x7b' :: ((toString v).data ++ (' ' :: (toString d).data) ++ ['\x7d'])
  | .vnot inner => '\x7b' :: (showVal inner ++ ['\x7d'])
  | .vregexpVars p _ => '\x7b' :: (p ++ ['\x7d'])
  | .vother n => n

def showValList : List GoVal → List Str
  | [] => []
  | v :: vs => showVal v :: showValList vs

def showValEntries : List (Str × GoVal) → List Str
  | [] => []
  | (k, v) :: es => (k ++ (':' :: showVal v)) :: showValEntries es

end

/-- Rendering of `reflect.Kind` values (as in `%v` of a kind). -/
def showKind : GoKind → Str
  | .kInvalid => "invalid".data
  | .kStruct => "struct".data
  | .kSlice => "slice".data
  | .kMap => "map".data
  | .kString => "string".data
  | .kBool => "bool".data
  | .kInt => "int".data
  | .kInt8 => "int8".data
  | .kInt16 => "int16".data
  | .kInt32 => "int32".data
  | .kInt64 => "int64".data
  | .kUint => "uint".data
  | .kUint8 => "uint8".data
  | .kUint16 => "uint16".data
  | .kUint32 => "uint32".data
  | .kUint64 => "uint64".data
  | .kFloat32 => "float32".data
  | .kFloat64 => "float64".data

/-- Rendering of `%T` type names (approximate where the model collapses
types; no claim depends on the text). -/
def showType : GoType → Str
  | .tNil => "<nil>".data
  | .tNot => "rehapt.Not".data
  | .tTimeDelta => "rehapt.TimeDelta".data
  | .tNumberDelta => "rehapt.NumberDelta".data
  | .tRegexpVars => "rehapt.RegexpVars".data
  | .tUnsortedS => "rehapt.UnsortedS".data
  | .tSliceOther => "[]interface".data
  | .tPartialM => "rehapt.PartialM".data
  | .tMapOther => "map[string]interface".data
  | .tAnyStr => "rehapt.any".data
  | .tStoreVar => "rehapt.StoreVar".data
  | .tLoadVar => "rehapt.LoadVar".data
  | .tRegexpStr => "rehapt.Regexp".data
  | .tStringOther => "string".data
  | .tBoolT => "bool".data
  | .tIntT _ => "int".data
  | .tUintT _ => "uint".data
  | .tFloatT _ => "float".data
  | .tOtherStruct n => n

/-- The `different kinds` message head for each comparator family. -/
def showWanted : WantedKind → Str
  | .wString => "string".data
  | .wSlice => "slice".data
  | .wMap => "map".data
  | .wBool => "bool".data
  | .wNumeric => "int\x7b8,16,32,64\x7d, uint\x7b8,16,32,64\x7d or float\x7b32,64\x7d".data

/-- Rendering of a `replaceVars` error, mirroring its `fmt.Errorf` texts. -/
def repErrString : RepErr → Str
  | .undefinedVariable w => "variable ".data ++ w ++ " is not defined".data
  | .unsupportedVariableType w =>
    "variable ".data ++ w ++ " cannot be using inside string".data

/-- Rendering of comparison errors, mirroring the `fmt.Errorf` format
strings of the source comparators. -/
def errString : CmpErr → Str
  | .expectedNilGotValue a => "expected is nil but got ".data ++ showVal a
  | .expectedValueGotNil e => "expected ".data ++ showVal e ++ " but got nil".data
  | .unhandledType t => "unhandled type ".data ++ showType t
  | .differentKinds w k =>
    "different kinds. Expected ".data ++ showWanted w ++ ", got ".data ++ showKind k
  | .differentSliceSizes el al e a =>
    "different slice sizes. Expected ".data ++ natToStr el ++ ", got ".data ++
      natToStr al ++ ". Expected ".data ++ showVal e ++ " got ".data ++ showVal a
  | .sliceElementMismatch i inner =>
    "slice element ".data ++ natToStr i ++ " does not match. ".data ++ errString inner
  | .expectedElementNotFound v i =>
    "expected element ".data ++ showVal v ++ " at index ".data ++ natToStr i ++
      " not found".data
  | .actualElementsNotFound idxs =>
    "actual elements at indexes ".data ++
      ('[' :: (joinSep [' '] (idxs.map natToStr) ++ [']'])) ++ " not found".data
  | .differentMapSizes el al =>
    "different map sizes. Expected ".data ++ natToStr el ++ ", got ".data ++ natToStr al
  | .expectedKeyNotFound k => "expected key ".data ++ k ++ " not found".data
  | .mapElementMismatch k inner =>
    "map element [".data ++ k ++ "] does not match. ".data ++ errString inner
  | .stringsMismatch e a =>
    "strings does not match. Expected '".data ++ e ++ "', got '".data ++ a ++ ['\'']
  | .boolsMismatch e a =>
    "bools does not match. Expected ".data ++ (toString e).data ++ ", got ".data ++
      (toString a).data
  | .intsMismatch e a =>
    "integers does not match. Expected ".data ++ (toString e).data ++ ", got ".data ++
      (toString a).data
  | .uintsMismatch e a =>
    "uintegers does not match. Expected ".data ++ (toString e).data ++ ", got ".data ++
      (toString a).data
  | .floatsMismatch e a =>
    "floats does not match. Expected ".data ++ (toString e).data ++ ", got ".data ++
      (toString a).data
  | .deltaExceeded v a d dt =>
    "max difference between ".data ++ (toString v).data ++ " and ".data ++ showVal a ++
      " allowed is ".data ++ (toString d).data ++ ", but difference was ".data ++
      (toString dt).data
  | .regexpCompileError pat => "error parsing regexp ".data ++ pat
  | .regexpNoMatch pat s =>
    "regexp '".data ++ pat ++ "' does not match '".data ++ s ++ ['\'']
  | .invalidVarName n => "invalid variable name ".data ++ n
  | .groupIndexOverflow i c =>
    "expected variable index ".data ++ natToStr i ++
      " overflow regexp group count of ".data ++ natToStr c
  | .varError e => repErrString e
  | .notMismatch v a =>
    "expected not ".data ++ showVal v ++ ", got ".data ++ showVal a
  | .outOfFuel => "out of fuel".data

/-- The `AnyCode` sentinel suppressing the status code check. -/
def AnyCode : Int := -1

/-- The response expectation of a test case (`TestResponse`). -/
structure TCResponse where
  code : Int
  headers : Option GoVal
  object : GoVal
  rawBodyExp : Option GoVal

/-- The recorded response handed back by the transport collaborator, with
the body both raw and already decoded by the unmarshal collaborator. -/
structure ActualResponse where
  statusCode : Int
  headers : GoVal
  rawBody : Str
  decodedBody : GoVal

/-- The status code check of `Test`: skipped entirely when the expected
code is `AnyCode`. -/
def codeCheck (tr : TCResponse) (resp : ActualResponse) : Option Str :=
  if tr.code ≠ AnyCode ∧ tr.code ≠ resp.statusCode then
    some ("response code does not match. Expected ".data ++ intToStr tr.code ++
      ", got ".data ++ intToStr resp.statusCode)
  else none

/-- The headers check of `Test`: only when the test case specifies
expected headers; its error is prefixed. -/
def headersCheck (σ : RState) (fuel : Nat) (tr : TCResponse) (resp : ActualResponse) :
    Option Str × RState :=
  match tr.headers with
  | none => (none, σ)
  | some hexp =>
    match compare fuel σ hexp resp.headers with
    | (some e, σ2) => (some ("response headers does not match. ".data ++ errString e), σ2)
    | (none, σ2) => (none, σ2)

/-- The body check of `Test`: the raw-body path compares against the
recorded body text, otherwise the expected object is compared against the
decoded body (unmarshalling itself is the external codec collaborator). -/
def bodyCheck (σ : RState) (fuel : Nat) (tr : TCResponse) (resp : ActualResponse) :
    Option Str × RState :=
  match tr.rawBodyExp with
  | some rb =>
    match compare fuel σ rb (.vstring resp.rawBody) with
    | (e, σ2) => (e.map errString, σ2)
  | none =>
    match compare fuel σ tr.object resp.decodedBody with
    | (e, σ2) => (e.map errString, σ2)

/-- `strings.TrimSuffix(e, newline)`: drop one trailing newline if present. -/
def trimOneNL (s : Str) : Str :=
  if s.getLast? == some '\n' then s.dropLast else s

/-- The error-combining tail of `Test`: concatenate the code, headers and
body messages (first two newline-terminated), then trim one trailing
newline; nil exactly when all three checks passed. -/
def combineTestErrors (c h b : Option Str) : Option Str :=
  if c.isNone ∧ h.isNone ∧ b.isNone then none
  else
    some (trimOneNL
      ((match c with | some m => m ++ ['\n'] | none => []) ++
       (match h with | some m => m ++ ['\n'] | none => []) ++
       (match b with | some m => m | none => [])))

/-- The response checking section of `Test` (after the transport call):
the three checks are all evaluated — no early return between them — and
their errors are combined. -/
def testChecks (σ : RState) (fuel : Nat) (tr : TCResponse) (resp : ActualResponse) :
    Option Str × RState :=
  let c := codeCheck tr resp
  let hp := headersCheck σ fuel tr resp
  let bp := bodyCheck hp.2 fuel tr resp
  (combineTestErrors c hp.1 bp.1, bp.2)

/-- The state transitions a `Rehapt` instance can undergo: manual
`SetVariable` (validated; unchanged on rejection), `SetStoreShortcutBounds`
(non-empty bounds), `SetLoadShortcutFloatPrecision`, a `compare` run
(side effects of matching), and a full `Test` check section. -/
inductive Step : RState → RState → Prop where
  | setVar (name : Str) (v : GoVal) (σ : RState) :
      Step σ (setVariable σ name v).2
  | storeBounds (pre suf : Str) (hp : pre ≠ []) (hs : suf ≠ []) (σ : RState) :
      Step σ { σ with storeOpen := pre, storeClose := suf }
  | floatPrec (p : Int) (σ : RState) :
      Step σ { σ with floatPrecision := p }
  | cmp (fuel : Nat) (e a : GoVal) (σ : RState) :
      Step σ (compare fuel σ e a).2
  | tchk (fuel : Nat) (tr : TCResponse) (resp : ActualResponse) (σ : RState) :
      Step σ (testChecks σ fuel tr resp).2

/-- A state as built by `NewRehapt`: empty variable store, default store
bounds, default float precision (the regexp oracle is arbitrary). -/
def isInitial (σ : RState) : Prop :=
  σ.vars = [] ∧ σ.storeOpen = ['$'] ∧ σ.storeClose = ['$'] ∧ σ.floatPrecision = -1

/-- States reachable by an engine instance from construction. -/
def Reachable (σ : RState) : Prop :=
  ∃ σ0, isInitial σ0 ∧ Relation.ReflTransGen Step σ0 σ

/-- Every key present in the variable store is a valid variable name
(non-empty alphanumeric). -/
def VarsValid (σ : RState) : Prop :=
  ∀ p ∈ σ.vars, validVarname p.1 = true

/-- A plain scalar literal: a bool, a number, or a string literal that is
neither a store token (under the state's bounds) nor contains load tokens.
Comparing such a value is a pure test with no side effect. -/
def plainScalar (σ : RState) : GoVal → Bool
  | .vbool _ => true
  | .vint _ _ => true
  | .vuint _ _ => true
  | .vfloat _ _ => true
  | .vstring s =>
    (storeTokenName σ.storeOpen σ.storeClose s).isNone && decide (loadTokens s = [])
  | _ => false

/-- The matching relation `compare` computes between plain scalar
literals, read off the scalar comparators: exact equality within a kind
family, two's-complement wrap between int and uint, exact widening from
int/uint expected to float actual, and truncation from float expected to
int/uint actual (the source of the asymmetry exercised by the C4
counterexample). -/
def scalarMatch : GoVal → GoVal → Bool
  | .vbool b, .vbool c => b == c
  | .vbool _, _ => false
  | .vint _ n, .vint _ m => n == m
  | .vint _ n, .vuint _ m => toUint64 n == m
  | .vint _ n, .vfloat _ q => (n : ℚ) == q
  | .vint _ _, _ => false
  | .vuint _ n, .vint _ m => toInt64 n == m
  | .vuint _ n, .vuint _ m => n == m
  | .vuint _ n, .vfloat _ q => (n : ℚ) == q
  | .vuint _ _, _ => false
  | .vfloat _ q, .vint _ m => ratTrunc q == m
  | .vfloat _ q, .vuint _ m => toUint64 (ratTrunc q) == m
  | .vfloat _ q, .vfloat _ p => q == p
  | .vfloat _ _, _ => false
  | .vstring s, y =>
    match strContent y with
    | some t => s == t
    | none => false
  | _, _ => false

/-- The pure shape of the inner scan of `unsortedSliceCompare` when the
elements are plain scalars: consume the first remaining actual matching
`x`, keeping the original actual indexes. -/
def pureScan (m : GoVal → GoVal → Bool) (x : GoVal) :
    List (Nat × GoVal) → Option (List (Nat × GoVal))
  | [] => none
  | (j, a) :: rest =>
    if m x a then some rest
    else (pureScan m x rest).map (fun r => (j, a) :: r)

/-- The rational 99.5 in lowest terms, built with the raw constructor so
that the scalar comparators evaluate on it by definitional reduction. -/
def ninetyNineHalf : ℚ := ⟨199, 2, by decide, by decide⟩

/-! ### General lemmas about the comparison core -/

theorem GoVal.isNil_eq_false {e : GoVal} (h : e ≠ .vnil) : e.isNil = false := by
  cases e <;> simp_all [GoVal.isNil]

/-- Unfolding of `compare` at positive fuel for non-nil sides. -/
theorem compare_succ (f : Nat) (σ : RState) (e a : GoVal)
    (he : e ≠ .vnil) (ha : a ≠ .vnil) :
    compare (f + 1) σ e a
      = compareStep (fun σ2 e2 a2 => compare f σ2 e2 a2) σ e a := by
  simp [compare, nilEntry, GoVal.isNil_eq_false he, GoVal.isNil_eq_false ha]

theorem numValue_ne_nil {a : GoVal} {q : ℚ} (h : numValue a = some q) :
    a ≠ .vnil := by
  cases a <;> simp_all [numValue]

/-! ### C7 — entry nil rules precede dispatch -/

/-- C7: compare's entry rules are applied in order before any matcher
dispatch: both sides null succeed; expected null against non-null actual
fails; and for every non-null expected value — including the `Any`
matcher which is documented to match anything — a null actual fails with
an expected-value-got-nil error, because the null check precedes dispatch. -/
theorem C7_nil_rules (σ : RState) (fuel : Nat) (e a : GoVal) :
    (compare fuel σ .vnil .vnil = (none, σ)) ∧
    (a ≠ .vnil → compare fuel σ .vnil a = (some (.expectedNilGotValue a), σ)) ∧
    (e ≠ .vnil → compare fuel σ e .vnil = (some (.expectedValueGotNil e), σ)) ∧
    (∀ s, compare fuel σ (.vany s) .vnil
      = (some (.expectedValueGotNil (.vany s)), σ)) := by
  refine ⟨by cases fuel <;> simp [compare, nilEntry, GoVal.isNil], ?_, ?_, ?_⟩
  · intro ha
    cases fuel <;> simp [compare, nilEntry, GoVal.isNil, GoVal.isNil_eq_false ha]
  · intro he
    cases fuel <;> simp [compare, nilEntry, GoVal.isNil, GoVal.isNil_eq_false he]
  · intro s
    cases fuel <;> simp [compare, nilEntry, GoVal.isNil]

theorem C7_nil_rules_witness :
    compare 0 initState .vnil .vnil = (none, initState) ∧
    compare 0 initState .vnil (.vint .iDefault 1) =
      (some (.expectedNilGotValue (.vint .iDefault 1)), initState) ∧
    compare 3 initState (.vany "A".data) .vnil =
      (some (.expectedValueGotNil (.vany "A".data)), initState) :=
  ⟨(C7_nil_rules initState 0 .vnil .vnil).1,
   (C7_nil_rules initState 0 .vnil (.vint .iDefault 1)).2.1 (by intro h; cases h),
   (C7_nil_rules initState 3 .vnil .vnil).2.2.2 "A".data⟩

/-! ### C2 — store-shortcut precedence in the string comparator -/

/-- C2: comparing an expected plain string that entirely matches the
store-shortcut pattern stores the actual value under the token's name and
returns success, performing no textual comparison and no kind check, for
every non-nil actual of any shape (a nil actual is caught by the entry
rule of `compare`, per C7). -/
theorem C2_store_shortcut (σ : RState) (f : Nat) (s name : Str) (a : GoVal)
    (htok : storeTokenName σ.storeOpen σ.storeClose s = some name)
    (ha : a ≠ .vnil) :
    compare (f + 1) σ (.vstring s) a = (none, σ.setVarRaw name a) ∧
    lookupVar (σ.setVarRaw name a).vars name = some a := by
  constructor
  · rw [compare_succ f σ _ a (by intro h; cases h) ha]
    simp [compareStep, stringCompareM, storeIfVariable, htok]
  · simp [RState.setVarRaw, lookupVar]

theorem C2_store_shortcut_witness :
    compare 1 initState (.vstring "$x$".data) (.vint .iDefault 1580)
      = (none, initState.setVarRaw "x".data (.vint .iDefault 1580)) ∧
    lookupVar (initState.setVarRaw "x".data (.vint .iDefault 1580)).vars "x".data
      = some (.vint .iDefault 1580) :=
  C2_store_shortcut initState 0 "$x$".data "x".data (.vint .iDefault 1580)
    (by rfl) (by intro h; cases h)

/-! ### C3 — NumberDelta tolerance boundary -/

/-- C3: for expected `NumberDelta(v, d)` and numeric actual (any signed,
unsigned or float width, widened), comparison succeeds iff
`|v - actual| ≤ d`; exactly at `d` succeeds; strictly above `d` fails with
an error carrying both values, the tolerance and the computed difference;
a non-numeric (non-nil) actual fails with a different-kinds error. -/
theorem C3_number_delta (σ : RState) (f : Nat) (v d : ℚ) (a : GoVal) :
    (∀ q, numValue a = some q →
      (((compare (f + 1) σ (.vnumberDelta v d) a).1 = none) ↔ |v - q| ≤ d) ∧
      (|v - q| > d →
        compare (f + 1) σ (.vnumberDelta v d) a
          = (some (.deltaExceeded v a d |v - q|), σ)) ∧
      (compare (f + 1) σ (.vnumberDelta v d) a).2 = σ) ∧
    (numValue a = none → a ≠ .vnil →
      compare (f + 1) σ (.vnumberDelta v d) a
        = (some (.differentKinds .wNumeric a.kindOf), σ)) := by
  constructor
  · intro q hq
    rw [compare_succ f σ _ a (by intro h; cases h) (numValue_ne_nil hq)]
    simp only [compareStep, numberDeltaCompareM, hq]
    refine ⟨?_, ?_, ?_⟩
    · by_cases hgt : |v - q| > d
      · simp [hgt]
      · simp [hgt]
        all_goals linarith [not_lt.mp hgt]
    · intro hgt; simp [hgt]
    · by_cases hgt : |v - q| > d <;> simp [hgt]
  · intro hnone ha
    rw [compare_succ f σ _ a (by intro h; cases h) ha]
    cases a <;> simp_all [compareStep, numberDeltaCompareM, numValue]

theorem C3_number_delta_witness :
    ((compare 1 initState (.vnumberDelta 555 5) (.vint .iDefault 560)).1 = none) ∧
    (compare 1 initState (.vnumberDelta 500 49) (.vint .iDefault 550)
      = (some (.deltaExceeded 500 (.vint .iDefault 550) 49 50), initState)) ∧
    (compare 1 initState (.vnumberDelta 500 49) (.vstring "x".data)
      = (some (.differentKinds .wNumeric .kString), initState)) := by
  refine ⟨?_, ?_, ?_⟩
  · exact ((C3_number_delta initState 0 555 5 (.vint .iDefault 560)).1 560 rfl).1.mpr
      (by norm_num)
  · have h := ((C3_number_delta initState 0 500 49 (.vint .iDefault 550)).1 550 rfl).2.1
      (by norm_num)
    have : |(500 : ℚ) - 550| = 50 := by norm_num
    rw [this] at h
    exact h
  · exact (C3_number_delta initState 0 500 49 (.vstring "x".data)).2 rfl
      (by intro h; cases h)

/-! ### C1 — registry dispatch: specific-type rules win, unhandled types fail -/

/-- C1: the registry dispatch (first rule in registration order whose kind
matches and whose type key is nil or the exact type) sends each matcher
type to its specific comparator — `UnsortedS`, `PartialM`, `Any`,
`StoreVar`, `LoadVar`, `Regexp` never reach the generic slice/map/string
comparator — and `compare` runs exactly that comparator; when no rule
matches, `compare` fails with an unhandled-type error naming the type. -/
theorem C1_dispatch :
    (∀ xs, dispatchOf (.vslice true xs) = some .unsortedSliceC) ∧
    (∀ xs, dispatchOf (.vmap true xs) = some .partialMapC) ∧
    (∀ s, dispatchOf (.vany s) = some .anyC) ∧
    (∀ s, dispatchOf (.vstorevar s) = some .storeVarC) ∧
    (∀ s, dispatchOf (.vloadvar s) = some .loadVarC) ∧
    (∀ s, dispatchOf (.vregexp s) = some .regexpC) ∧
    (∀ xs, dispatchOf (.vslice false xs) = some .sliceC) ∧
    (∀ xs, dispatchOf (.vmap false xs) = some .mapC) ∧
    (∀ s, dispatchOf (.vstring s) = some .stringC) ∧
    (∀ f σ xs a, a ≠ .vnil →
      compare (f + 1) σ (.vslice true xs) a
        = unsortedSliceCompareM (fun σ2 e2 a2 => compare f σ2 e2 a2) σ xs
            (.vslice true xs) a) ∧
    (∀ f σ xs a, a ≠ .vnil →
      compare (f + 1) σ (.vmap true xs) a
        = partialMapCompareM (fun σ2 e2 a2 => compare f σ2 e2 a2) σ xs a) ∧
    (∀ f σ s a, a ≠ .vnil → compare (f + 1) σ (.vany s) a = (none, σ)) ∧
    (∀ f σ s a, a ≠ .vnil →
      compare (f + 1) σ (.vstorevar s) a
        = match setVariable σ s a with
          | (some bad, σ2) => (some (.invalidVarName bad), σ2)
          | (none, σ2) => (none, σ2)) ∧
    (∀ f σ s a, a ≠ .vnil →
      compare (f + 1) σ (.vloadvar s) a
        = compare f σ ((lookupVar σ.vars s).getD .vnil) a) ∧
    (∀ f σ s a, a ≠ .vnil → compare (f + 1) σ (.vregexp s) a = regexpCompareM σ s a) ∧
    (∀ n, dispatchOf (.vother n) = none) ∧
    (∀ f σ e a, e ≠ .vnil → a ≠ .vnil → dispatchOf e = none →
      (compare (f + 1) σ e a).1 = some (.unhandledType e.typeOf)) := by
  refine ⟨fun xs => rfl, fun xs => rfl, fun s => rfl, fun s => rfl, fun s => rfl,
    fun s => rfl, fun xs => rfl, fun xs => rfl, fun s => rfl,
    ?_, ?_, ?_, ?_, ?_, ?_, fun n => rfl, ?_⟩
  · intro f σ xs a ha
    rw [compare_succ f σ _ a (by intro h; cases h) ha]; rfl
  · intro f σ xs a ha
    rw [compare_succ f σ _ a (by intro h; cases h) ha]; rfl
  · intro f σ s a ha
    rw [compare_succ f σ _ a (by intro h; cases h) ha]; rfl
  · intro f σ s a ha
    rw [compare_succ f σ _ a (by intro h; cases h) ha]; rfl
  · intro f σ s a ha
    rw [compare_succ f σ _ a (by intro h; cases h) ha]; rfl
  · intro f σ s a ha
    rw [compare_succ f σ _ a (by intro h; cases h) ha]; rfl
  · intro f σ e a he ha hnone
    rw [compare_succ f σ e a he ha]
    cases e with
    | vnil => exact absurd rfl he
    | vother n => rfl
    | vslice u xs => cases u <;> cases hnone
    | vmap p xs => cases p <;> cases hnone
    | vint w n => cases w <;> cases hnone
    | vuint w n => cases w <;> cases hnone
    | vfloat w q => cases w <;> cases hnone
    | _ => cases hnone

theorem C1_dispatch_witness :
    dispatchOf (.vslice true []) = some .unsortedSliceC ∧
    dispatchOf (.vany "A".data) = some .anyC ∧
    compare 1 initState (.vany "A".data) (.vint .iDefault 7) = (none, initState) ∧
    (compare 1 initState (.vother "X".data) (.vbool true)).1
      = some (.unhandledType (.tOtherStruct "X".data)) :=
  ⟨C1_dispatch.1 [], C1_dispatch.2.2.1 "A".data,
   C1_dispatch.2.2.2.2.2.2.2.2.2.2.2.1 0 initState "A".data (.vint .iDefault 7)
     (by intro h; cases h),
   C1_dispatch.2.2.2.2.2.2.2.2.2.2.2.2.2.2.2.2 0 initState (.vother "X".data)
     (.vbool true) (by intro h; cases h) (by intro h; cases h) rfl⟩

/-! ### C5 — partial mapping ignores extra keys, exact mapping checks sizes -/

/-- The shared entry loop succeeds, leaving the state unchanged, when
every expected entry is present and compares clean without state change. -/
theorem mapEntriesWith_ok (cmp : RState → GoVal → GoVal → Option CmpErr × RState)
    (σ : RState) (as : List (Str × GoVal)) (es : List (Str × GoVal))
    (h : ∀ p ∈ es, ∃ w, lookupVar as p.1 = some w ∧ cmp σ p.2 w = (none, σ)) :
    mapEntriesWith cmp σ as es = (none, σ) := by
  induction es with
  | nil => rfl
  | cons p rest ih =>
    obtain ⟨w, hw, hcmp⟩ := h p (List.mem_cons_self p rest)
    obtain ⟨k, v⟩ := p
    simp only [mapEntriesWith, hw, hcmp]
    exact ih (fun p hp => h p (List.mem_cons_of_mem _ hp))

/-- C5: a `PartialM` whose listed entries are all present and matching
succeeds regardless of extra unlisted actual keys — no size comparison —
while the exact mapping comparator fails with a different-sizes error
whenever the key counts differ. -/
theorem C5_partial_map (σ : RState) (f : Nat) (es as : List (Str × GoVal)) (u : Bool) :
    ((∀ p ∈ es, ∃ w, lookupVar as p.1 = some w ∧
        compare f σ p.2 w = (none, σ)) →
      compare (f + 1) σ (.vmap true es) (.vmap u as) = (none, σ)) ∧
    ((es.map Prod.fst).Nodup → (as.map Prod.fst).Nodup →
      es.length ≠ as.length →
      compare (f + 1) σ (.vmap false es) (.vmap u as)
        = (some (.differentMapSizes es.length as.length), σ)) := by
  constructor
  · intro h
    rw [compare_succ f σ _ _ (by intro hh; cases hh) (by intro hh; cases hh)]
    simp only [compareStep, partialMapCompareM, mapShape]
    exact mapEntriesWith_ok _ σ as es h
  · intro _ _ hlen
    rw [compare_succ f σ _ _ (by intro hh; cases hh) (by intro hh; cases hh)]
    simp [compareStep, mapCompareM, mapShape, hlen]

theorem C5_partial_map_witness :
    compare 2 initState (.vmap true [("name".data, .vstring "John".data)])
        (.vmap false [("name".data, .vstring "John".data),
                      ("Age".data, .vint .iDefault 51)])
      = (none, initState) ∧
    compare 2 initState (.vmap false [("name".data, .vstring "John".data)])
        (.vmap false [("name".data, .vstring "John".data),
                      ("Age".data, .vint .iDefault 51)])
      = (some (.differentMapSizes 1 2), initState) := by
  constructor
  · exact (C5_partial_map initState 1 [("name".data, .vstring "John".data)]
      [("name".data, .vstring "John".data), ("Age".data, .vint .iDefault 51)]
      false).1
      (by
        intro p hp
        simp only [List.mem_singleton] at hp
        subst hp
        exact ⟨.vstring "John".data, by rfl, by rfl⟩)
  · exact (C5_partial_map initState 1 [("name".data, .vstring "John".data)]
      [("name".data, .vstring "John".data), ("Age".data, .vint .iDefault 51)]
      false).2 (by simp) (by simp) (by simp)

/-! ### C8 / C9 — the substitution engine -/

theorem takeWhile_take {α : Type} (p : α → Bool) :
    ∀ (l : List α), l.take (l.takeWhile p).length = l.takeWhile p := by
  intro l
  induction l with
  | nil => rfl
  | cons a l ih => by_cases h : p a <;> simp [List.takeWhile_cons, h, ih]

theorem takeWhile_append_drop {α : Type} (p : α → Bool) (l : List α) :
    l.takeWhile p ++ l.drop (l.takeWhile p).length = l := by
  conv_rhs => rw [← List.take_append_drop (l.takeWhile p).length l]
  rw [takeWhile_take]

/-- Concatenating the source text of the scanned segments restores the
input: the scan preserves all non-token text and token spans verbatim. -/
theorem scanLoad_reconstruct_aux :
    ∀ (n : Nat) (s : Str), s.length ≤ n →
      ((scanLoad s).map segSource).flatten = s := by
  intro n
  induction n with
  | zero =>
    intro s h
    have : s = [] := List.length_eq_zero.mp (Nat.le_zero.mp h)
    subst this
    rfl
  | succ n ih =>
    intro s h
    cases s with
    | nil => rfl
    | cons c rest =>
      rw [scanLoad_cons]
      by_cases hc : c = '_'
      · rw [if_pos hc]
        by_cases htok : (!(rest.takeWhile isAlnumChar).isEmpty &&
            ((rest.drop (rest.takeWhile isAlnumChar).length).head? == some '_')) = true
        · rw [if_pos htok]
          obtain ⟨hne, hhd⟩ := Bool.and_eq_true_iff.mp htok
          have hhd2 : (rest.drop (rest.takeWhile isAlnumChar).length).head? = some '_' := by
            simpa using hhd
          have hsplit := takeWhile_append_drop isAlnumChar rest
          set w := rest.takeWhile isAlnumChar with hw
          set d := rest.drop w.length with hd
          cases hdc : d with
          | nil => rw [hdc] at hhd2; cases hhd2
          | cons c2 t2 =>
            have hc2 : c2 = '_' := by rw [hdc] at hhd2; simpa using hhd2
            subst hc2
            subst hc
            have hdrop : rest.drop (w.length + 1) = t2 := by
              have h1 : rest.drop (w.length + 1) = (rest.drop w.length).drop 1 := by
                rw [List.drop_drop]
              rw [h1, ← hd, hdc, List.drop_one, List.tail_cons]
            have hlen : t2.length ≤ n := by
              have h2 : d.length ≤ rest.length := by
                rw [hd]; simp [List.length_drop]
              have h3 : rest.length ≤ n := by simpa using h
              rw [hdc] at h2
              simp at h2
              omega
            rw [hdrop]
            simp only [List.map_cons, List.flatten_cons, segSource]
            rw [ih t2 hlen]
            rw [← hsplit, hdc]
            simp
        · rw [if_neg htok]
          simp only [List.map_cons, List.flatten_cons, segSource]
          rw [ih rest (by simpa using h)]
          simp
      · rw [if_neg hc]
        simp only [List.map_cons, List.flatten_cons, segSource]
        rw [ih rest (by simpa using h)]
        simp

theorem scanLoad_reconstruct (s : Str) : ((scanLoad s).map segSource).flatten = s :=
  scanLoad_reconstruct_aux s.length s (le_refl _)

/-- Splicing succeeds when every segment renders, producing the join of
the rendered segments. -/
theorem spliceSegs_ok (σ : RState) :
    ∀ (segs : List Seg), (∀ sg ∈ segs, ∃ o, renderSeg σ sg = .ok o) →
      spliceSegs σ segs
        = .ok ((segs.map (fun sg => ((renderSeg σ sg).toOption).getD [])).flatten) := by
  intro segs
  induction segs with
  | nil => intro _; rfl
  | cons sg rest ih =>
    intro h
    obtain ⟨o, ho⟩ := h sg (List.mem_cons_self sg rest)
    simp only [spliceSegs, ho, List.map_cons, List.flatten_cons]
    rw [ih (fun s0 hs0 => h s0 (List.mem_cons_of_mem _ hs0))]
    simp [ho, Except.toOption]

/-- Splicing fails with the error of the first failing segment. -/
theorem spliceSegs_error_first (σ : RState) :
    ∀ (pre : List Seg) (sg : Seg) (post : List Seg) (e : RepErr),
      (∀ s0 ∈ pre, ∃ o, renderSeg σ s0 = .ok o) →
      renderSeg σ sg = .error e →
      spliceSegs σ (pre ++ sg :: post) = .error e := by
  intro pre
  induction pre with
  | nil =>
    intro sg post e _ he
    simp [spliceSegs, he]
  | cons s0 rest ih =>
    intro sg post e h he
    obtain ⟨o, ho⟩ := h s0 (List.mem_cons_self s0 rest)
    simp only [List.cons_append, spliceSegs, ho, List.append_eq]
    rw [ih sg post e (fun s1 hs1 => h s1 (List.mem_cons_of_mem _ hs1)) he]

/-- Splicing fails whenever some segment fails to render. -/
theorem spliceSegs_error_exists (σ : RState) :
    ∀ (segs : List Seg), (∃ sg ∈ segs, ∃ e, renderSeg σ sg = .error e) →
      ∃ e, spliceSegs σ segs = .error e := by
  intro segs
  induction segs with
  | nil => rintro ⟨sg, hsg, _⟩; cases hsg
  | cons s0 rest ih =>
    rintro ⟨sg, hsg, e, he⟩
    cases hr : renderSeg σ s0 with
    | error e0 => exact ⟨e0, by simp [spliceSegs, hr]⟩
    | ok o =>
      rcases List.mem_cons.mp hsg with h0 | h0
      · subst h0; rw [hr] at he; cases he
      · obtain ⟨e1, he1⟩ := ih ⟨sg, h0, e, he⟩
        exact ⟨e1, by simp [spliceSegs, hr, he1]⟩

/-- A string with zero load tokens passes through `replaceVars` unchanged. -/
theorem replaceVars_no_tokens (σ : RState) (s : Str) (h : loadTokens s = []) :
    replaceVars σ s = .ok s := by
  have hlit : ∀ sg ∈ scanLoad s, ∃ c, sg = .lit c := by
    intro sg hsg
    cases sg with
    | lit c => exact ⟨c, rfl⟩
    | tok w =>
      exfalso
      have : w ∈ loadTokens s := by
        simp only [loadTokens, List.mem_filterMap]
        exact ⟨.tok w, hsg, rfl⟩
      rw [h] at this
      cases this
  have h1 : ∀ sg ∈ scanLoad s, ∃ o, renderSeg σ sg = .ok o := by
    intro sg hsg
    obtain ⟨c, hc⟩ := hlit sg hsg
    exact ⟨[c], by rw [hc]; rfl⟩
  rw [replaceVars, spliceSegs_ok σ _ h1]
  congr 1
  have h2 : (scanLoad s).map (fun sg => ((renderSeg σ sg).toOption).getD [])
      = (scanLoad s).map segSource := by
    apply List.map_congr_left
    intro sg hsg
    obtain ⟨c, hc⟩ := hlit sg hsg
    rw [hc]
    rfl
  rw [h2, scanLoad_reconstruct]

/-- C8: a string containing zero load tokens is returned identically by
`replaceVars` with no possible error, and applying the substitution twice
to token-free literal text is a no-op. -/
theorem C8_no_tokens_identity (σ : RState) (s : Str) (h : loadTokens s = []) :
    replaceVars σ s = .ok s ∧
    (replaceVars σ s).bind (replaceVars σ) = .ok s := by
  have hok := replaceVars_no_tokens σ s h
  exact ⟨hok, by rw [hok]; exact hok⟩

theorem C8_no_tokens_identity_witness :
    loadTokens "hello world".data = [] ∧
    replaceVars initState "hello world".data = .ok "hello world".data ∧
    (replaceVars initState "hello world".data).bind (replaceVars initState)
      = .ok "hello world".data :=
  ⟨rfl, (C8_no_tokens_identity initState "hello world".data rfl).1,
    (C8_no_tokens_identity initState "hello world".data rfl).2⟩

/-- Decomposition of a `filterMap` element occurrence. -/
theorem filterMap_split {α β : Type} (f : α → Option β) :
    ∀ (l : List α) (pre : List β) (b : β) (post : List β),
      l.filterMap f = pre ++ b :: post →
      ∃ l1 a l2, l = l1 ++ a :: l2 ∧ f a = some b ∧ l1.filterMap f = pre ∧
        l2.filterMap f = post := by
  intro l
  induction l with
  | nil =>
    intro pre b post h
    simp only [List.filterMap_nil] at h
    exact absurd h.symm (List.append_ne_nil_of_right_ne_nil pre (by simp))
  | cons a l ih =>
    intro pre b post h
    cases hfa : f a with
    | none =>
      rw [List.filterMap_cons_none hfa] at h
      obtain ⟨l1, a1, l2, h1, h2, h3, h4⟩ := ih pre b post h
      exact ⟨a :: l1, a1, l2, by simp [h1], h2,
        by simp [List.filterMap_cons, hfa, h3], h4⟩
    | some b0 =>
      rw [List.filterMap_cons_some hfa] at h
      cases pre with
      | nil =>
        simp only [List.nil_append] at h
        obtain ⟨hb, hrest⟩ := List.cons.inj h
        exact ⟨[], a, l, rfl, by rw [hfa, hb], rfl, hrest⟩
      | cons p pre2 =>
        simp only [List.cons_append] at h
        obtain ⟨hb, hrest⟩ := List.cons.inj h
        obtain ⟨l1, a1, l2, h1, h2, h3, h4⟩ := ih pre2 b post hrest
        exact ⟨a :: l1, a1, l2, by simp [h1],
          h2, by simp [List.filterMap_cons, hfa, h3, hb], h4⟩

/-- C9 (amended): a string with at least one load token referencing an
absent variable always fails; if every token before the first such absent
token references a present, scalar-stringifiable value, the error is an
undefined-variable error naming that variable; when every referenced
variable is present and scalar-stringifiable, every token is replaced by
the stringified stored value and all non-token text is preserved verbatim
(the scanned segments reconstruct the input). -/
theorem C9_replace_vars (σ : RState) (s : Str) :
    ((∃ w ∈ loadTokens s, lookupVar σ.vars w = none) →
      ∃ e, replaceVars σ s = .error e) ∧
    (∀ pre w post, loadTokens s = pre ++ w :: post →
      lookupVar σ.vars w = none →
      (∀ u ∈ pre, ∃ v o, lookupVar σ.vars u = some v ∧
        stringifyVar σ.floatPrecision v = some o) →
      replaceVars σ s = .error (.undefinedVariable w)) ∧
    ((∀ w ∈ loadTokens s, ∃ v o, lookupVar σ.vars w = some v ∧
        stringifyVar σ.floatPrecision v = some o) →
      replaceVars σ s
        = .ok (((scanLoad s).map
            (fun sg => ((renderSeg σ sg).toOption).getD [])).flatten) ∧
      ((scanLoad s).map segSource).flatten = s) := by
  refine ⟨?_, ?_, ?_⟩
  · rintro ⟨w, hw, hlook⟩
    apply spliceSegs_error_exists
    simp only [loadTokens, List.mem_filterMap] at hw
    obtain ⟨sg, hsg, hsome⟩ := hw
    cases sg with
    | lit c => cases hsome
    | tok w2 =>
      have : w2 = w := by simpa using hsome
      subst this
      exact ⟨.tok w2, hsg, .undefinedVariable w2, by simp [renderSeg, hlook]⟩
  · intro pre w post hsplit hlook hpre
    simp only [loadTokens] at hsplit
    obtain ⟨l1, sg, l2, h1, h2, h3, _⟩ :=
      filterMap_split (fun sg => match sg with | .tok w => some w | .lit _ => none)
        (scanLoad s) pre w post hsplit
    have hsg : sg = .tok w := by
      cases sg with
      | lit c => cases h2
      | tok w2 => simp at h2; rw [h2]
    rw [replaceVars, h1]
    apply spliceSegs_error_first
    · intro s0 hs0
      cases hs0t : s0 with
      | lit c => exact ⟨[c], rfl⟩
      | tok u =>
        have hu : u ∈ pre := by
          rw [← h3]
          simp only [List.mem_filterMap]
          exact ⟨s0, hs0, by rw [hs0t]⟩
        obtain ⟨v, o, hv, ho⟩ := hpre u hu
        exact ⟨o, by simp [renderSeg, hv, ho]⟩
    · rw [hsg]
      simp [renderSeg, hlook]
  · intro h
    refine ⟨?_, scanLoad_reconstruct s⟩
    apply spliceSegs_ok
    intro sg hsg
    cases hsgt : sg with
    | lit c => exact ⟨[c], rfl⟩
    | tok u =>
      have hu : u ∈ loadTokens s := by
        simp only [loadTokens, List.mem_filterMap]
        exact ⟨sg, hsg, by rw [hsgt]⟩
      obtain ⟨v, o, hv, ho⟩ := h u hu
      exact ⟨o, by simp [renderSeg, hv, ho]⟩

/-- C9 counterexample to the claim as frozen: the input contains a token
`b` whose variable is absent, yet the error is not an undefined-variable
error — an earlier token references a present but non-stringifiable
(slice-valued) variable, and its unsupported-type error wins. -/
theorem C9_replace_vars_counterexample :
    (['b'] ∈ loadTokens "_a__b_".data ∧
     lookupVar ({ initState with
        vars := [(['a'], .vslice false [])] } : RState).vars ['b'] = none) ∧
    replaceVars { initState with vars := [(['a'], .vslice false [])] } "_a__b_".data
      = .error (.unsupportedVariableType ['a']) ∧
    ∀ w, replaceVars { initState with vars := [(['a'], .vslice false [])] } "_a__b_".data
      ≠ .error (.undefinedVariable w) := by
  refine ⟨⟨by decide, rfl⟩, rfl, ?_⟩
  intro w h
  rw [show replaceVars { initState with vars := [(['a'], .vslice false [])] } "_a__b_".data
      = .error (.unsupportedVariableType ['a']) from rfl] at h
  cases h

theorem C9_replace_vars_witness :
    replaceVars { initState with vars := [(['a'], .vslice false [])] } "_b_".data
      = .error (.undefinedVariable ['b']) ∧
    replaceVars { initState with vars := [(['n'], .vint .iDefault 7)] } "x_n_y".data
      = .ok "x7y".data := by
  constructor
  · exact (C9_replace_vars _ "_b_".data).2.1 [] ['b'] [] rfl rfl
      (by intro u hu; cases hu)
  · have h := (C9_replace_vars { initState with
      vars := [(['n'], .vint .iDefault 7)] } "x_n_y".data).2.2
      (by
        intro w hw
        have : w = ['n'] := by
          have : loadTokens "x_n_y".data = [['n']] := rfl
          rw [this] at hw
          simpa using hw
        subst this
        exact ⟨.vint .iDefault 7, ['7'], rfl, rfl⟩)
    rw [h.1]
    rfl

/-! ### C6 — the orchestrator evaluates all three checks and joins errors -/

theorem getLast?_append_ne {α : Type} :
    ∀ (u t : List α), t ≠ [] → (u ++ t).getLast? = t.getLast? := by
  intro u
  induction u with
  | nil => intro t _; rfl
  | cons a u ih =>
    intro t h
    rw [List.cons_append]
    cases hut : u ++ t with
    | nil => exact absurd (List.append_eq_nil.mp hut).2 h
    | cons b l => rw [List.getLast?_cons_cons, ← hut, ih t h]

theorem dropLast_append_ne {α : Type} :
    ∀ (u t : List α), t ≠ [] → (u ++ t).dropLast = u ++ t.dropLast := by
  intro u
  induction u with
  | nil => intro t _; rfl
  | cons a u ih =>
    intro t h
    rw [List.cons_append]
    cases hut : u ++ t with
    | nil => exact absurd (List.append_eq_nil.mp hut).2 h
    | cons b l =>
      rw [List.dropLast_cons₂, ← hut, ih t h, List.cons_append]

theorem trimOneNL_append (u t : Str) (h : t ≠ []) :
    trimOneNL (u ++ t) = u ++ trimOneNL t := by
  unfold trimOneNL
  rw [getLast?_append_ne u t h]
  by_cases hnl : (t.getLast? == some '\n') = true
  · rw [if_pos hnl, if_pos hnl, dropLast_append_ne u t h]
  · rw [if_neg hnl, if_neg hnl]

/-- C6: the response check section evaluates the status code check (unless
suppressed by the any-code sentinel), the headers check and the body check
independently, returns nil exactly when all three succeed, and otherwise
returns their messages joined with newline separators (one trailing
newline trimmed), so a later mismatch never suppresses the code mismatch:
the code message is always a prefix of the combined error. -/
theorem C6_test_checks (σ : RState) (f : Nat) (tr : TCResponse) (resp : ActualResponse) :
    ((testChecks σ f tr resp).1 = none ↔
      (codeCheck tr resp = none ∧ (headersCheck σ f tr resp).1 = none ∧
        (bodyCheck (headersCheck σ f tr resp).2 f tr resp).1 = none)) ∧
    (∀ mc, codeCheck tr resp = some mc →
      ∃ t2, (testChecks σ f tr resp).1 = some (mc ++ t2)) ∧
    (∀ mc mh mb, codeCheck tr resp = some mc →
      (headersCheck σ f tr resp).1 = some mh →
      (bodyCheck (headersCheck σ f tr resp).2 f tr resp).1 = some mb →
      (testChecks σ f tr resp).1
        = some (trimOneNL (mc ++ '\n' :: (mh ++ '\n' :: mb)))) := by
  refine ⟨?_, ?_, ?_⟩
  · simp only [testChecks, combineTestErrors]
    split
    next hcond =>
      simp only [Option.isNone_iff_eq_none] at hcond
      simp [hcond]
    next hcond =>
      simp only [Option.isNone_iff_eq_none] at hcond
      simp only [not_and_or] at hcond
      constructor
      · intro hc; cases hc
      · intro ⟨h1, h2, h3⟩
        rcases hcond with h | h | h <;> simp_all
  · intro mc hmc
    simp only [testChecks, combineTestErrors, hmc]
    split
    next hcond => simp [hmc] at hcond
    next =>
      refine ⟨trimOneNL ('\n' ::
        ((match (headersCheck σ f tr resp).1 with
          | some m => m ++ ['\n'] | none => []) ++
         (match (bodyCheck (headersCheck σ f tr resp).2 f tr resp).1 with
          | some m => m | none => []))), ?_⟩
      rw [← trimOneNL_append mc _ (by simp)]
      congr 1
      simp
  · intro mc mh mb hmc hmh hmb
    simp only [testChecks, combineTestErrors, hmc, hmh, hmb]
    split
    next hcond => simp [hmc] at hcond
    next =>
      congr 2
      simp

theorem C6_test_checks_witness :
    (testChecks initState 1 ⟨AnyCode, none, .vnil, none⟩
        ⟨500, .vnil, [], .vnil⟩).1 = none ∧
    (testChecks initState 1 ⟨200, some (.vbool true), .vnil, some (.vbool true)⟩
        ⟨404, .vbool false, "zz".data, .vnil⟩).1
      = some (trimOneNL
          (("response code does not match. Expected 200, got 404".data) ++ '\n' ::
           (("response headers does not match. bools does not match. Expected true, got false".data) ++ '\n' ::
            ("different kinds. Expected bool, got string".data)))) := by
  constructor
  · exact (C6_test_checks initState 1 ⟨AnyCode, none, .vnil, none⟩
      ⟨500, .vnil, [], .vnil⟩).1.mpr ⟨rfl, rfl, rfl⟩
  · exact (C6_test_checks initState 1
      ⟨200, some (.vbool true), .vnil, some (.vbool true)⟩
      ⟨404, .vbool false, "zz".data, .vnil⟩).2.2 _ _ _ rfl rfl rfl

/-! ### C10 — every stored key is a valid variable name -/

theorem storeTokenName_valid {P S s w : Str}
    (h : storeTokenName P S s = some w) : validVarname w = true := by
  simp only [storeTokenName] at h
  split at h
  next hcond =>
    have hw := Option.some.inj h
    subst hw
    rw [Bool.and_eq_true, Bool.and_eq_true, Bool.and_eq_true] at hcond
    obtain ⟨⟨⟨h1, _⟩, _⟩, hall⟩ := hcond
    have hlt : P.length + S.length < s.length := by simpa using h1
    rw [validVarname]
    cases hmid : (s.drop P.length).take (s.length - P.length - S.length) with
    | nil =>
      exfalso
      have hlen := congrArg List.length hmid
      simp only [List.length_take, List.length_drop, List.length_nil] at hlen
      omega
    | cons c t =>
      rw [hmid] at hall
      simp [hall]
  next => cases h

theorem setVarRaw_preserves {σ : RState} {name : Str} {v : GoVal}
    (hσ : VarsValid σ) (hname : validVarname name = true) :
    VarsValid (σ.setVarRaw name v) := by
  intro p hp
  simp only [RState.setVarRaw, List.mem_cons] at hp
  rcases hp with h | h
  · rw [h]; exact hname
  · exact hσ p (List.mem_of_mem_filter h)

theorem setVariable_preserves {σ : RState} {name : Str} {v : GoVal}
    (hσ : VarsValid σ) : VarsValid (setVariable σ name v).2 := by
  unfold setVariable
  split
  next h => exact setVarRaw_preserves hσ h
  next => exact hσ

theorem storeIfVariable_preserves {σ : RState} {s : Str} {a : GoVal}
    (hσ : VarsValid σ) : VarsValid (storeIfVariable σ s a).2 := by
  unfold storeIfVariable
  cases h : storeTokenName σ.storeOpen σ.storeClose s with
  | none => exact hσ
  | some w => exact setVarRaw_preserves hσ (storeTokenName_valid h)

theorem regexpVarsSetAll_preserves :
    ∀ (vs : List (Nat × Str)) (σ : RState) (groups : List Str),
      VarsValid σ → VarsValid (regexpVarsSetAll σ vs groups).2 := by
  intro vs
  induction vs with
  | nil => intro σ groups hσ; exact hσ
  | cons p rest ih =>
    intro σ groups hσ
    obtain ⟨gid, name⟩ := p
    simp only [regexpVarsSetAll]
    split
    · exact hσ
    · cases hset : setVariable σ name (.vstring (groups.getD gid [])) with
      | mk err σ2 =>
        have h2 : VarsValid σ2 := by
          have hpres := @setVariable_preserves σ name
            (.vstring (groups.getD gid [])) hσ
          rw [hset] at hpres
          exact hpres
        cases err with
        | some bad => exact h2
        | none => exact ih σ2 groups h2
theorem stringCompareM_preserves {σ : RState} {s : Str} {a : GoVal}
    (hσ : VarsValid σ) : VarsValid (stringCompareM σ s a).2 := by
  unfold stringCompareM
  cases hst : storeIfVariable σ s a with
  | mk stored σ2 =>
    have h2 : VarsValid σ2 := by
      have hpres := @storeIfVariable_preserves σ s a hσ
      rw [hst] at hpres
      exact hpres
    cases stored
    · dsimp only
      split
      next => exact h2
      next =>
        split
        next => exact h2
        next => split <;> exact h2
    · exact h2

theorem sliceCompareWith_preserves
    {cmp : RState → GoVal → GoVal → Option CmpErr × RState}
    (hcmp : ∀ σ e a, VarsValid σ → VarsValid (cmp σ e a).2) :
    ∀ (xs as : List GoVal) (σ : RState) (i : Nat),
      VarsValid σ → VarsValid (sliceCompareWith cmp σ i xs as).2 := by
  intro xs
  induction xs with
  | nil => intro as σ i hσ; cases as <;> exact hσ
  | cons x xs ih =>
    intro as σ i hσ
    cases as with
    | nil => exact hσ
    | cons a as =>
      simp only [sliceCompareWith]
      cases hc : cmp σ x a with
      | mk err σ2 =>
        have h2 : VarsValid σ2 := by
          have hpres := hcmp σ x a hσ; rw [hc] at hpres; exact hpres
        cases err with
        | some e => exact h2
        | none => exact ih as σ2 (i + 1) h2

theorem scanForMatch_preserves
    {cmp : RState → GoVal → GoVal → Option CmpErr × RState}
    (hcmp : ∀ σ e a, VarsValid σ → VarsValid (cmp σ e a).2) :
    ∀ (rem : List (Nat × GoVal)) (σ : RState) (x : GoVal),
      VarsValid σ → VarsValid (scanForMatch cmp σ x rem).2 := by
  intro rem
  induction rem with
  | nil => intro σ x hσ; exact hσ
  | cons p rest ih =>
    intro σ x hσ
    obtain ⟨j, a⟩ := p
    simp only [scanForMatch]
    cases hc : cmp σ x a with
    | mk err σ2 =>
      have h2 : VarsValid σ2 := by
        have hpres := hcmp σ x a hσ; rw [hc] at hpres; exact hpres
      cases err with
      | none => exact h2
      | some e => exact ih σ2 x h2

theorem unsortedLoop_preserves
    {cmp : RState → GoVal → GoVal → Option CmpErr × RState}
    (hcmp : ∀ σ e a, VarsValid σ → VarsValid (cmp σ e a).2) :
    ∀ (xs : List GoVal) (rem : List (Nat × GoVal)) (σ : RState) (i : Nat),
      VarsValid σ → VarsValid (unsortedLoop cmp σ i xs rem).2 := by
  intro xs
  induction xs with
  | nil =>
    intro rem σ i hσ
    by_cases h : rem.isEmpty <;> simp [unsortedLoop, h, hσ]
  | cons x xs ih =>
    intro rem σ i hσ
    simp only [unsortedLoop]
    cases hs : scanForMatch cmp σ x rem with
    | mk res σ2 =>
      have h2 : VarsValid σ2 := by
        have hpres := scanForMatch_preserves hcmp rem σ x hσ
        rw [hs] at hpres; exact hpres
      cases res with
      | some rem2 => exact ih rem2 σ2 (i + 1) h2
      | none => exact h2

theorem mapEntriesWith_preserves
    {cmp : RState → GoVal → GoVal → Option CmpErr × RState}
    (hcmp : ∀ σ e a, VarsValid σ → VarsValid (cmp σ e a).2) :
    ∀ (es : List (Str × GoVal)) (as : List (Str × GoVal)) (σ : RState),
      VarsValid σ → VarsValid (mapEntriesWith cmp σ as es).2 := by
  intro es
  induction es with
  | nil => intro as σ hσ; exact hσ
  | cons p rest ih =>
    intro as σ hσ
    obtain ⟨k, v⟩ := p
    simp only [mapEntriesWith]
    cases hlk : lookupVar as k with
    | none => exact hσ
    | some w =>
      dsimp only
      cases hc : cmp σ v w with
      | mk err σ2 =>
        have h2 : VarsValid σ2 := by
          have hpres := hcmp σ v w hσ; rw [hc] at hpres; exact hpres
        cases err with
        | some e => exact h2
        | none => exact ih as σ2 h2

theorem compareStep_preserves
    {cmp : RState → GoVal → GoVal → Option CmpErr × RState}
    (hcmp : ∀ σ e a, VarsValid σ → VarsValid (cmp σ e a).2)
    (σ : RState) (e a : GoVal) (hσ : VarsValid σ) :
    VarsValid (compareStep cmp σ e a).2 := by
  cases e with
  | vnil => exact hσ
  | vnot inner =>
    simp only [compareStep]
    cases hc : cmp σ inner a with
    | mk err σ2 =>
      have h2 : VarsValid σ2 := by
        have hpres := hcmp σ inner a hσ; rw [hc] at hpres; exact hpres
      cases err <;> exact h2
  | vnumberDelta v d =>
    simp only [compareStep, numberDeltaCompareM]
    cases numValue a with
    | none => exact hσ
    | some af => by_cases hgt : |v - af| > d <;> simp [hgt, hσ]
  | vregexpVars pat vs =>
    simp only [compareStep, regexpVarsCompareM]
    cases strContent a with
    | none => exact hσ
    | some t =>
      dsimp only
      cases σ.regexEval pat t with
      | compileError => exact hσ
      | noMatch => exact hσ
      | matched groups => exact regexpVarsSetAll_preserves vs σ groups hσ
  | vslice u xs =>
    cases u with
    | true =>
      simp only [compareStep, unsortedSliceCompareM]
      cases sliceShape a with
      | none => exact hσ
      | some as =>
        by_cases hlen : xs.length ≠ as.length
        · simp [hlen, hσ]
        · simp only [hlen, if_neg, ite_false]
          simpa [hlen] using unsortedLoop_preserves hcmp xs as.enum σ 0 hσ
    | false =>
      simp only [compareStep, sliceCompareM]
      cases sliceShape a with
      | none => exact hσ
      | some as =>
        by_cases hlen : xs.length ≠ as.length
        · simp [hlen, hσ]
        · simpa [hlen] using sliceCompareWith_preserves hcmp xs as σ 0 hσ
  | vmap p xs =>
    cases p with
    | true =>
      simp only [compareStep, partialMapCompareM]
      cases mapShape a with
      | none => exact hσ
      | some as => exact mapEntriesWith_preserves hcmp xs as σ hσ
    | false =>
      simp only [compareStep, mapCompareM]
      cases mapShape a with
      | none => exact hσ
      | some as =>
        by_cases hlen : xs.length ≠ as.length
        · simp [hlen, hσ]
        · simpa [hlen] using mapEntriesWith_preserves hcmp xs as σ hσ
  | vany s => exact hσ
  | vstorevar name =>
    simp only [compareStep]
    cases hset : setVariable σ name a with
    | mk err σ2 =>
      have h2 : VarsValid σ2 := by
        have hpres := @setVariable_preserves σ name a hσ
        rw [hset] at hpres; exact hpres
      cases err <;> exact h2
  | vloadvar name => exact hcmp σ _ a hσ
  | vregexp pat =>
    simp only [compareStep, regexpCompareM]
    cases strContent a with
    | none => exact hσ
    | some t =>
      dsimp only
      cases replaceVars σ pat with
      | error e => exact hσ
      | ok pat2 =>
        dsimp only
        cases σ.regexEval pat2 t <;> exact hσ
  | vstring s => exact stringCompareM_preserves hσ
  | vbool b =>
    simp only [compareStep, boolCompareM]
    cases a
    all_goals first
      | exact hσ
      | (split <;> first
          | exact hσ
          | (split <;> exact hσ))
  | vint w n =>
    simp only [compareStep, intCompareM]
    cases a
    all_goals first
      | exact hσ
      | (split <;> first
          | exact hσ
          | (split <;> exact hσ))
  | vuint w n =>
    simp only [compareStep, uintCompareM]
    cases a
    all_goals first
      | exact hσ
      | (split <;> first
          | exact hσ
          | (split <;> exact hσ))
  | vfloat w q =>
    simp only [compareStep, floatCompareM]
    cases a
    all_goals first
      | exact hσ
      | (split <;> first
          | exact hσ
          | (split <;> exact hσ))
  | vother n => exact hσ

theorem compare_preserves :
    ∀ (f : Nat) (σ : RState) (e a : GoVal),
      VarsValid σ → VarsValid (compare f σ e a).2 := by
  intro f
  induction f with
  | zero =>
    intro σ e a hσ
    simp only [compare, nilEntry]
    split
    · split <;> exact hσ
    · split <;> exact hσ
  | succ f ih =>
    intro σ e a hσ
    simp only [compare, nilEntry]
    split
    · split <;> exact hσ
    · split
      · exact hσ
      · exact compareStep_preserves (fun σ2 e2 a2 => ih σ2 e2 a2) σ e a hσ

theorem testChecks_preserves (σ : RState) (f : Nat) (tr : TCResponse)
    (resp : ActualResponse) (hσ : VarsValid σ) :
    VarsValid (testChecks σ f tr resp).2 := by
  simp only [testChecks]
  have h2 : VarsValid (headersCheck σ f tr resp).2 := by
    unfold headersCheck
    cases tr.headers with
    | none => exact hσ
    | some hexp =>
      dsimp only
      cases hc : compare f σ hexp resp.headers with
      | mk err σ2 =>
        have hpres := compare_preserves f σ hexp resp.headers hσ
        rw [hc] at hpres
        cases err <;> exact hpres
  unfold bodyCheck
  cases tr.rawBodyExp with
  | some rb =>
    dsimp only
    cases hc : compare f (headersCheck σ f tr resp).2 rb (.vstring resp.rawBody) with
    | mk err σ3 =>
      have hpres := compare_preserves f (headersCheck σ f tr resp).2 rb
        (.vstring resp.rawBody) h2
      rw [hc] at hpres
      exact hpres
  | none =>
    dsimp only
    cases hc : compare f (headersCheck σ f tr resp).2 tr.object resp.decodedBody with
    | mk err σ3 =>
      have hpres := compare_preserves f (headersCheck σ f tr resp).2 tr.object
        resp.decodedBody h2
      rw [hc] at hpres
      exact hpres

/-- C10: at every reachable state of an engine instance, every key in the
variable store matches the variable-name pattern (non-empty alphanumeric):
`SetVariable` rejects invalid names leaving the store unchanged, the
store-shortcut path (under any custom non-empty bounds) only inserts the
alphanumeric capture group, and regex-capture stores go through
`SetVariable`; `compare` and the test orchestration preserve the
invariant. -/
theorem C10_store_keys_valid :
    (∀ σ, Reachable σ → VarsValid σ) ∧
    (∀ (σ : RState) (name : Str) (v : GoVal), validVarname name = false →
      setVariable σ name v = (some name, σ)) ∧
    (∀ (P S s w : Str), storeTokenName P S s = some w → validVarname w = true) := by
  refine ⟨?_, ?_, fun P S s w h => storeTokenName_valid h⟩
  · intro σ hreach
    obtain ⟨σ0, hinit, hsteps⟩ := hreach
    have h0 : VarsValid σ0 := by
      intro p hp
      rw [hinit.1] at hp
      cases hp
    clear hinit
    induction hsteps with
    | refl => exact h0
    | tail hab hbc ih =>
      have hb := ih
      cases hbc with
      | setVar name v => exact setVariable_preserves hb
      | storeBounds pre suf hp hs => exact hb
      | floatPrec p => exact hb
      | cmp fuel e a => exact compare_preserves fuel _ e a hb
      | tchk fuel tr resp => exact testChecks_preserves _ fuel tr resp hb
  · intro σ name v h
    simp [setVariable, h]

theorem C10_store_keys_valid_witness :
    (∀ p ∈ (compare 2 initState (.vstring "$x$".data) (.vint .iDefault 1580)).2.vars,
      validVarname p.1 = true) ∧
    setVariable initState "bad name".data (.vbool true)
      = (some "bad name".data, initState) ∧
    validVarname "x".data = true :=
  ⟨C10_store_keys_valid.1 _
      ⟨initState, ⟨rfl, rfl, rfl, rfl⟩,
        Relation.ReflTransGen.single
          (Step.cmp 2 (.vstring "$x$".data) (.vint .iDefault 1580) initState)⟩,
   C10_store_keys_valid.2.1 initState "bad name".data (.vbool true) (by decide),
   C10_store_keys_valid.2.2 ['$'] ['$'] "$x$".data "x".data rfl⟩

/-! ### C4 — unsorted sequences: greedy matching over plain scalars -/

theorem pair_if_neg {c : Prop} [Decidable c] {e : CmpErr} {σ : RState} :
    ((if c then ((some e : Option CmpErr), σ) else (none, σ)).2 = σ) ∧
    (((if c then ((some e : Option CmpErr), σ) else (none, σ)).1 = none) ↔ ¬c) := by
  by_cases h : c <;> simp [h]

/-- On plain scalars, `compare` is the pure test `scalarMatch` and leaves
the state untouched. -/
theorem compare_plain_scalar (σ : RState) (f : Nat) (x y : GoVal)
    (hx : plainScalar σ x = true) (hy : plainScalar σ y = true) :
    (compare (f + 1) σ x y).2 = σ ∧
    ((compare (f + 1) σ x y).1 = none ↔ scalarMatch x y = true) := by
  have hxn : x ≠ .vnil := by cases x <;> simp_all [plainScalar]
  have hyn : y ≠ .vnil := by cases y <;> simp_all [plainScalar]
  rw [compare_succ f σ x y hxn hyn]
  cases x with
  | vbool b =>
    cases y with
    | vbool c =>
      simp only [compareStep, boolCompareM]
      refine ⟨pair_if_neg.1, ?_⟩
      rw [pair_if_neg.2]
      simp [scalarMatch]
    | vint w m => exact ⟨rfl, by simp [compareStep, boolCompareM, scalarMatch]⟩
    | vuint w m => exact ⟨rfl, by simp [compareStep, boolCompareM, scalarMatch]⟩
    | vfloat w q => exact ⟨rfl, by simp [compareStep, boolCompareM, scalarMatch]⟩
    | vstring t => exact ⟨rfl, by simp [compareStep, boolCompareM, scalarMatch]⟩
    | _ => simp_all [plainScalar]
  | vint w n =>
    cases y with
    | vint w2 m =>
      simp only [compareStep, intCompareM]
      refine ⟨pair_if_neg.1, ?_⟩
      rw [pair_if_neg.2]
      simp [scalarMatch]
    | vuint w2 m =>
      simp only [compareStep, intCompareM]
      refine ⟨pair_if_neg.1, ?_⟩
      rw [pair_if_neg.2]
      simp [scalarMatch]
    | vfloat w2 q =>
      simp only [compareStep, intCompareM]
      refine ⟨pair_if_neg.1, ?_⟩
      rw [pair_if_neg.2]
      simp [scalarMatch]
    | vbool c => exact ⟨rfl, by simp [compareStep, intCompareM, scalarMatch]⟩
    | vstring t => exact ⟨rfl, by simp [compareStep, intCompareM, scalarMatch]⟩
    | _ => simp_all [plainScalar]
  | vuint w n =>
    cases y with
    | vint w2 m =>
      simp only [compareStep, uintCompareM]
      refine ⟨pair_if_neg.1, ?_⟩
      rw [pair_if_neg.2]
      simp [scalarMatch]
    | vuint w2 m =>
      simp only [compareStep, uintCompareM]
      refine ⟨pair_if_neg.1, ?_⟩
      rw [pair_if_neg.2]
      simp [scalarMatch]
    | vfloat w2 q =>
      simp only [compareStep, uintCompareM]
      refine ⟨pair_if_neg.1, ?_⟩
      rw [pair_if_neg.2]
      simp [scalarMatch]
    | vbool c => exact ⟨rfl, by simp [compareStep, uintCompareM, scalarMatch]⟩
    | vstring t => exact ⟨rfl, by simp [compareStep, uintCompareM, scalarMatch]⟩
    | _ => simp_all [plainScalar]
  | vfloat w q =>
    cases y with
    | vint w2 m =>
      simp only [compareStep, floatCompareM]
      refine ⟨pair_if_neg.1, ?_⟩
      rw [pair_if_neg.2]
      simp [scalarMatch]
    | vuint w2 m =>
      simp only [compareStep, floatCompareM]
      refine ⟨pair_if_neg.1, ?_⟩
      rw [pair_if_neg.2]
      simp [scalarMatch]
    | vfloat w2 p =>
      simp only [compareStep, floatCompareM]
      refine ⟨pair_if_neg.1, ?_⟩
      rw [pair_if_neg.2]
      simp [scalarMatch]
    | vbool c => exact ⟨rfl, by simp [compareStep, floatCompareM, scalarMatch]⟩
    | vstring t => exact ⟨rfl, by simp [compareStep, floatCompareM, scalarMatch]⟩
    | _ => simp_all [plainScalar]
  | vstring s2 =>
    rw [plainScalar, Bool.and_eq_true] at hx
    obtain ⟨hx1, hx2⟩ := hx
    have hst : storeTokenName σ.storeOpen σ.storeClose s2 = none :=
      Option.isNone_iff_eq_none.mp hx1
    have hrv : replaceVars σ s2 = .ok s2 :=
      replaceVars_no_tokens σ s2 (by simpa using hx2)
    have hshow : compareStep (fun σ2 e2 a2 => compare f σ2 e2 a2) σ (.vstring s2) y
        = stringCompareM σ s2 y := rfl
    rw [hshow, stringCompareM, storeIfVariable, hst]
    cases y with
    | vstring t =>
      dsimp only [strContent]
      rw [hrv]
      dsimp only
      refine ⟨pair_if_neg.1, ?_⟩
      rw [pair_if_neg.2]
      simp [scalarMatch, strContent]
    | vbool c => exact ⟨rfl, by simp [scalarMatch, strContent]⟩
    | vint w m => exact ⟨rfl, by simp [scalarMatch, strContent]⟩
    | vuint w m => exact ⟨rfl, by simp [scalarMatch, strContent]⟩
    | vfloat w q2 => exact ⟨rfl, by simp [scalarMatch, strContent]⟩
    | _ => simp_all [plainScalar]
  | _ => simp_all [plainScalar]

theorem scalarMatch_refl (σ : RState) (x : GoVal) (hx : plainScalar σ x = true) :
    scalarMatch x x = true := by
  cases x <;> simp_all [plainScalar, scalarMatch, strContent]

theorem pureScan_some_of_exists (m : GoVal → GoVal → Bool) (x : GoVal) :
    ∀ (rem : List (Nat × GoVal)), (∃ p ∈ rem, m x p.2 = true) →
      ∃ rem2, pureScan m x rem = some rem2 := by
  intro rem
  induction rem with
  | nil => rintro ⟨p, hp, _⟩; cases hp
  | cons q rest ih =>
    rintro ⟨p, hp, hm⟩
    obtain ⟨j, a⟩ := q
    by_cases hja : m x a = true
    · exact ⟨rest, by simp [pureScan, hja]⟩
    · rcases List.mem_cons.mp hp with h0 | h0
      · exfalso; rw [h0] at hm; exact hja hm
      · obtain ⟨rem2, h2⟩ := ih ⟨p, h0, hm⟩
        exact ⟨(j, a) :: rem2, by simp [pureScan, hja, h2]⟩

theorem pureScan_eq_some (m : GoVal → GoVal → Bool) (x : GoVal) :
    ∀ (rem rem2 : List (Nat × GoVal)), pureScan m x rem = some rem2 →
      ∃ pre j a post, rem = pre ++ (j, a) :: post ∧
        (∀ p ∈ pre, m x p.2 = false) ∧ m x a = true ∧ rem2 = pre ++ post := by
  intro rem
  induction rem with
  | nil => intro rem2 h; cases h
  | cons q rest ih =>
    intro rem2 h
    obtain ⟨j, a⟩ := q
    by_cases hja : m x a = true
    · rw [pureScan, if_pos hja] at h
      exact ⟨[], j, a, rest, by simp, by simp, hja,
        by simpa using (Option.some.inj h).symm⟩
    · rw [pureScan, if_neg hja] at h
      cases hrec : pureScan m x rest with
      | none => rw [hrec] at h; cases h
      | some r =>
        rw [hrec] at h
        have hr2 : rem2 = (j, a) :: r := by simpa using (Option.some.inj h).symm
        obtain ⟨pre, j0, a0, post, h1, h2, h3, h4⟩ := ih r hrec
        refine ⟨(j, a) :: pre, j0, a0, post, by simp [h1], ?_, h3, by simp [hr2, h4]⟩
        intro p hp
        rcases List.mem_cons.mp hp with h0 | h0
        · rw [h0]; exact Bool.not_eq_true _ ▸ eq_false_of_ne_true hja
        · exact h2 p h0

theorem scanForMatch_pure (σ : RState) (f : Nat) (x : GoVal)
    (hx : plainScalar σ x = true) :
    ∀ (rem : List (Nat × GoVal)), (∀ p ∈ rem, plainScalar σ p.2 = true) →
      scanForMatch (fun σ2 e2 a2 => compare (f + 1) σ2 e2 a2) σ x rem
        = (pureScan scalarMatch x rem, σ) := by
  intro rem
  induction rem with
  | nil => intro _; rfl
  | cons q rest ih =>
    intro hprem
    obtain ⟨j, a⟩ := q
    have hpa : plainScalar σ a = true := hprem (j, a) (List.mem_cons_self _ _)
    have hc := compare_plain_scalar σ f x a hx hpa
    simp only [scanForMatch]
    cases hcmp : compare (f + 1) σ x a with
    | mk err σ2 =>
      have hσ2 : σ2 = σ := by
        have h1 := hc.1; rw [hcmp] at h1; exact h1
      have hiff : (err = none) ↔ scalarMatch x a = true := by
        have h2 := hc.2; rw [hcmp] at h2; exact h2
      subst hσ2
      by_cases hm : scalarMatch x a = true
      · have herr : err = none := hiff.mpr hm
        subst herr
        simp [pureScan, hm]
      · have herr : err ≠ none := fun hcontra => hm (hiff.mp hcontra)
        cases err with
        | none => exact absurd rfl herr
        | some e =>
          dsimp only
          rw [ih (fun p hp => hprem p (List.mem_cons_of_mem _ hp))]
          simp [pureScan, hm]

theorem scanForMatch_length (cmp : RState → GoVal → GoVal → Option CmpErr × RState) :
    ∀ (rem : List (Nat × GoVal)) (σ : RState) (x : GoVal)
      (rem2 : List (Nat × GoVal)) (σ2 : RState),
      scanForMatch cmp σ x rem = (some rem2, σ2) → rem2.length + 1 = rem.length := by
  intro rem
  induction rem with
  | nil => intro σ x rem2 σ2 h; cases h
  | cons q rest ih =>
    intro σ x rem2 σ2 h
    obtain ⟨j, a⟩ := q
    simp only [scanForMatch] at h
    cases hc : cmp σ x a with
    | mk err σ3 =>
      rw [hc] at h
      cases err with
      | none =>
        have : rest = rem2 := by simpa using congrArg Prod.fst h
        rw [← this]
        simp
      | some e =>
        dsimp only at h
        cases hs : scanForMatch cmp σ3 x rest with
        | mk res σ4 =>
          rw [hs] at h
          cases res with
          | none => simp at h
          | some r =>
            have hr : (j, a) :: r = rem2 := by simpa using congrArg Prod.fst h
            have hlen := ih σ3 x r σ4 hs
            rw [← hr]
            simp
            omega

theorem unsortedLoop_equal_len (cmp : RState → GoVal → GoVal → Option CmpErr × RState) :
    ∀ (es : List GoVal) (rem : List (Nat × GoVal)) (σ : RState) (i : Nat),
      es.length = rem.length →
      (unsortedLoop cmp σ i es rem).1 = none ∨
      ∃ k x, es.get? k = some x ∧
        (unsortedLoop cmp σ i es rem).1 = some (.expectedElementNotFound x (i + k)) := by
  intro es
  induction es with
  | nil =>
    intro rem σ i hlen
    left
    have : rem = [] := List.length_eq_zero.mp hlen.symm
    subst this
    rfl
  | cons x xs ih =>
    intro rem σ i hlen
    simp only [unsortedLoop]
    cases hs : scanForMatch cmp σ x rem with
    | mk res σ2 =>
      cases res with
      | some rem2 =>
        have hlen2 : xs.length = rem2.length := by
          have h1 := scanForMatch_length cmp rem σ x rem2 σ2 hs
          simp only [List.length_cons] at hlen
          omega
        rcases ih rem2 σ2 (i + 1) hlen2 with h | ⟨k, x2, hget, herr⟩
        · left; exact h
        · right
          refine ⟨k + 1, x2, by simpa using hget, ?_⟩
          have harith : i + 1 + k = i + (k + 1) := by omega
          rw [harith] at herr
          exact herr
      | none =>
        right
        exact ⟨0, x, rfl, by dsimp only; rw [Nat.add_zero]⟩

/-- Greedy matching succeeds on a class-count-balanced remainder when the
match relation restricted to the involved elements is an equivalence
(reflexivity holds for plain scalars; symmetry and transitivity are the
hypotheses the C4 counterexample shows the claim cannot do without). -/
theorem unsorted_greedy_ok (σ : RState) (f : Nat) (U : List GoVal)
    (hU : ∀ x ∈ U, plainScalar σ x = true)
    (hsym : ∀ x ∈ U, ∀ y ∈ U, scalarMatch x y = scalarMatch y x)
    (htrans : ∀ x ∈ U, ∀ y ∈ U, ∀ z ∈ U,
      scalarMatch x y = true → scalarMatch y z = true → scalarMatch x z = true) :
    ∀ (es : List GoVal) (rem : List (Nat × GoVal)) (i : Nat),
      (∀ x ∈ es, x ∈ U) → (∀ p ∈ rem, p.2 ∈ U) →
      (∀ z ∈ es, es.countP (scalarMatch z)
        = (rem.map Prod.snd).countP (scalarMatch z)) →
      es.length = rem.length →
      unsortedLoop (fun σ2 e2 a2 => compare (f + 1) σ2 e2 a2) σ i es rem
        = (none, σ) := by
  intro es
  induction es with
  | nil =>
    intro rem i _ _ _ hlen
    have hr : rem = [] := List.length_eq_zero.mp hlen.symm
    subst hr
    rfl
  | cons x xs ih =>
    intro rem i hesU hremU hcnt hlen
    have hxU : x ∈ U := hesU x (List.mem_cons_self _ _)
    have hxp : plainScalar σ x = true := hU x hxU
    have hrefl : scalarMatch x x = true := scalarMatch_refl σ x hxp
    have hpos : 0 < (rem.map Prod.snd).countP (scalarMatch x) := by
      rw [← hcnt x (List.mem_cons_self _ _)]
      simp [List.countP_cons, hrefl]
    obtain ⟨y, hymem, hy⟩ := List.countP_pos_iff.mp hpos
    obtain ⟨p, hpmem, hpy⟩ := List.mem_map.mp hymem
    obtain ⟨rem2, hscan⟩ := pureScan_some_of_exists scalarMatch x rem
      ⟨p, hpmem, by rw [hpy]; exact hy⟩
    have hremp : ∀ q ∈ rem, plainScalar σ q.2 = true :=
      fun q hq => hU _ (hremU q hq)
    have hsim := scanForMatch_pure σ f x hxp rem hremp
    rw [hscan] at hsim
    simp only [unsortedLoop]
    rw [hsim]
    dsimp only
    obtain ⟨pre, j, a, post, hremeq, hpreF, hma, hrem2⟩ :=
      pureScan_eq_some scalarMatch x rem rem2 hscan
    have haU : a ∈ U := by
      refine hremU (j, a) ?_
      rw [hremeq]
      exact List.mem_append_right _ (List.mem_cons_self _ _)
    apply ih rem2 (i + 1)
    · exact fun z hz => hesU z (List.mem_cons_of_mem _ hz)
    · intro q hq
      refine hremU q ?_
      rw [hrem2] at hq
      rw [hremeq]
      rcases List.mem_append.mp hq with h0 | h0
      · exact List.mem_append_left _ h0
      · exact List.mem_append_right _ (List.mem_cons_of_mem _ h0)
    · intro z hz
      have hzU : z ∈ U := hesU z (List.mem_cons_of_mem _ hz)
      have hcz := hcnt z (List.mem_cons_of_mem _ hz)
      rw [hremeq] at hcz
      rw [hrem2]
      simp only [List.map_append, List.map_cons, List.countP_append,
        List.countP_cons] at hcz ⊢
      by_cases hzx : scalarMatch z x = true
      · have hza : scalarMatch z a = true := htrans z hzU x hxU a haU hzx hma
        simp only [hzx, hza, if_true, ite_true] at hcz
        omega
      · have hza : scalarMatch z a = false := by
          cases hb : scalarMatch z a with
          | false => rfl
          | true =>
            exfalso
            have hax : scalarMatch a x = true := by
              rw [← hsym x hxU a haU]
              exact hma
            exact hzx (htrans z hzU a haU x hxU hb hax)
        have hzx2 : scalarMatch z x = false := by
          cases hb : scalarMatch z x with
          | false => rfl
          | true => exact absurd hb hzx
        simp only [hzx2, hza, if_false, ite_false, Bool.false_eq_true] at hcz ⊢
        omega
    · have h1 := congrArg List.length hremeq
      have h2 := congrArg List.length hrem2
      simp only [List.length_append, List.length_cons] at h1 h2
      simp only [List.length_cons] at hlen
      omega

/-- C4 (amended): for an `UnsortedS` of plain scalar literals whose
matching relation is symmetric and transitive on the listed elements, any
permutation of the same multiset succeeds (and leaves the state
unchanged); for equal-length sequences every failure names an expected
element and its index; different lengths always fail with a
different-sizes error.  The amendment is forced by the counterexample:
`scalarMatch` is not symmetric across a fractional float literal and the
integer literal it truncates to, and greedy matching then fails on a
genuine permutation. -/
theorem C4_unsorted_sequences (σ : RState) (f : Nat) (es as : List GoVal) (u : Bool) :
    ((∀ x ∈ es, plainScalar σ x = true) →
     (∀ x ∈ es, ∀ y ∈ es, scalarMatch x y = scalarMatch y x) →
     (∀ x ∈ es, ∀ y ∈ es, ∀ z ∈ es, scalarMatch x y = true →
        scalarMatch y z = true → scalarMatch x z = true) →
     as.Perm es →
     compare (f + 2) σ (.vslice true es) (.vslice u as) = (none, σ)) ∧
    (es.length = as.length →
     ∀ err, (compare (f + 2) σ (.vslice true es) (.vslice u as)).1 = some err →
     ∃ k x, es.get? k = some x ∧ err = .expectedElementNotFound x k) ∧
    (es.length ≠ as.length →
     (compare (f + 2) σ (.vslice true es) (.vslice u as)).1
       = some (.differentSliceSizes es.length as.length
           (.vslice true es) (.vslice u as))) := by
  have hunfold : compare (f + 2) σ (.vslice true es) (.vslice u as)
      = unsortedSliceCompareM (fun σ2 e2 a2 => compare (f + 1) σ2 e2 a2) σ es
          (.vslice true es) (.vslice u as) := by
    rw [show f + 2 = (f + 1) + 1 from rfl,
      compare_succ (f + 1) σ _ _ (by intro h; cases h) (by intro h; cases h)]
    rfl
  refine ⟨?_, ?_, ?_⟩
  · intro h1 h2 h3 hperm
    have hlen : as.length = es.length := hperm.length_eq
    rw [hunfold]
    simp only [unsortedSliceCompareM, sliceShape]
    rw [if_neg (by omega)]
    apply unsorted_greedy_ok σ f es h1 h2 h3 es as.enum 0 (fun z hz => hz)
    · intro p hp
      have hmem : p.2 ∈ as.enum.map Prod.snd := List.mem_map_of_mem Prod.snd hp
      rw [List.enum_map_snd] at hmem
      exact hperm.mem_iff.mp hmem
    · intro z _
      rw [List.enum_map_snd]
      exact (hperm.countP_eq (scalarMatch z)).symm
    · simp [hlen]
  · intro hlen err herr
    rw [hunfold] at herr
    simp only [unsortedSliceCompareM, sliceShape] at herr
    rw [if_neg (by omega)] at herr
    rcases unsortedLoop_equal_len (fun σ2 e2 a2 => compare (f + 1) σ2 e2 a2) es
      as.enum σ 0 (by simp [hlen]) with h | ⟨k, x, hget, hsome⟩
    · rw [h] at herr; cases herr
    · rw [hsome] at herr
      refine ⟨k, x, hget, ?_⟩
      have := Option.some.inj herr
      rw [← this]
      rw [Nat.zero_add]
  · intro hlen
    rw [hunfold]
    simp only [unsortedSliceCompareM, sliceShape]
    rw [if_pos hlen]

/-- C4 counterexample to the claim as frozen: the expected elements are
plain scalar literals and the actual sequence is a permutation of the
same multiset, yet `compare` fails — the float literal 99.5 greedily
consumes the int actual 99 (Go truncates the float for the comparison),
leaving the expected 99 unmatched. -/
theorem C4_unsorted_sequences_counterexample :
    ninetyNineHalf = 199 / 2 ∧
    List.Perm [GoVal.vint .iDefault 99, GoVal.vfloat .f64 ninetyNineHalf]
      [GoVal.vfloat .f64 ninetyNineHalf, GoVal.vint .iDefault 99] ∧
    (∀ x ∈ [GoVal.vfloat .f64 ninetyNineHalf, GoVal.vint .iDefault 99],
      plainScalar initState x = true) ∧
    (compare 2 initState
        (.vslice true [.vfloat .f64 ninetyNineHalf, .vint .iDefault 99])
        (.vslice false [.vint .iDefault 99, .vfloat .f64 ninetyNineHalf])).1
      = some (.expectedElementNotFound (.vint .iDefault 99) 1) := by
  refine ⟨?_, List.Perm.swap _ _ _, by decide, rfl⟩
  have h := Rat.num_div_den ninetyNineHalf
  rw [show ninetyNineHalf.num = (199 : ℤ) from rfl,
    show ninetyNineHalf.den = (2 : ℕ) from rfl] at h
  rw [← h]; norm_num

theorem C4_unsorted_sequences_witness :
    compare 2 initState
        (.vslice true [.vstring "Doe".data, .vint .iDefault 99,
          .vstring "John".data])
        (.vslice false [.vstring "John".data, .vstring "Doe".data,
          .vint .iDefault 99])
      = (none, initState) ∧
    (∃ k x, [GoVal.vbool true].get? k = some x ∧
      (CmpErr.expectedElementNotFound (.vbool true) 0 : CmpErr)
        = .expectedElementNotFound x k) ∧
    (compare 2 initState (.vslice true [GoVal.vbool true])
        (.vslice false [GoVal.vbool true, GoVal.vbool false])).1
      = some (.differentSliceSizes 1 2 (.vslice true [GoVal.vbool true])
          (.vslice false [GoVal.vbool true, GoVal.vbool false])) := by
  refine ⟨?_, ?_, ?_⟩
  · exact (C4_unsorted_sequences initState 0
      [.vstring "Doe".data, .vint .iDefault 99, .vstring "John".data]
      [.vstring "John".data, .vstring "Doe".data, .vint .iDefault 99] false).1
      (by decide) (by decide) (by decide)
      ((List.Perm.swap _ _ _).trans
        (List.Perm.cons _ (List.Perm.swap _ _ _)))
  · exact (C4_unsorted_sequences initState 0 [GoVal.vbool true]
      [GoVal.vbool false] false).2.1 (by decide)
      (.expectedElementNotFound (.vbool true) 0) rfl
  · exact (C4_unsorted_sequences initState 0 [GoVal.vbool true]
      [GoVal.vbool true, GoVal.vbool false] false).2.2 (by decide)

end Rehapt
